import Mathlib

/-!
Verification development for the Naukri jobs scraping pipeline
(`src/main.js` and its sibling variants).

The JavaScript source is shallowly embedded: DOM / network reads become
explicit inputs, JavaScript strings become `String`, JS `null`/`''` both
become `""` where the code only distinguishes truthiness, sets of URLs
become `List String`, and each pipeline function becomes a total Lean
function mirroring the source's control flow.
-/

namespace Naukri

/-! ## String helpers mirroring the JavaScript string primitives used by the source -/

/-- JavaScript whitespace (the characters the source's `.trim()` / `\s` touch). -/
def isWsChar (c : Char) : Bool :=
  c = ' ' || c = '\t' || c = '\n' || c = '\r'

/-- Model of `String.prototype.trim`. -/
def trimStr (s : String) : String :=
  ((s.toList.dropWhile isWsChar).reverse.dropWhile isWsChar).reverse.asString

/-- Model of `String.prototype.toLowerCase` (ASCII, which is all the source compares). -/
def toLowerStr (s : String) : String :=
  (s.toList.map Char.toLower).asString

/-- Char-list prefix test. -/
def isPreOf : List Char → List Char → Bool
  | [], _ => true
  | _ :: _, [] => false
  | a :: as, b :: bs => a = b && isPreOf as bs

/-- Model of `String.prototype.startsWith`. -/
def startsWithStr (s pre : String) : Bool :=
  isPreOf pre.toList s.toList

/-- Substring occurrence on char lists. -/
def subOccurs (needle : List Char) : List Char → Bool
  | [] => isPreOf needle []
  | c :: cs => isPreOf needle (c :: cs) || subOccurs needle cs

/-- Model of `String.prototype.includes`. -/
def containsSub (s sub : String) : Bool :=
  subOccurs sub.toList s.toList

/-- JS `a || b` on strings, with `""` standing for both `''` and `null`. -/
def jsOr (a b : String) : String :=
  if a = "" then b else a

/-! ## The JobRecord data model (§3 of the spec; object literals in the source) -/

/-- One output record.  Missing / `null` string fields are embedded as `""`.
The `scrapedAt` timestamp is environment-supplied in the source
(`new Date().toISOString()`) and carries no decision logic; it is embedded
as an uninterpreted string field defaulting to `""`. -/
structure JobRecord where
  title : String := ""
  company : String := ""
  location : String := ""
  salary : String := ""
  experience : String := ""
  jobType : String := ""
  postedDate : String := ""
  descriptionHtml : String := ""
  descriptionText : String := ""
  url : String := ""
  tags : String := ""
  jobId : String := ""
  scrapedAt : String := ""
deriving DecidableEq, Repr

/-! ## Deduplication & Listing Controller (main.js 1135-1153)

```js
let jobsToSave = maxJobs > 0 ? jobs.slice(0, Math.max(0, maxJobs - totalJobsScraped)) : jobs;
const uniqueJobs = jobsToSave.filter(job => {
    if (!job.url) return true; // Keep jobs without URL
    if (seenJobUrls.has(job.url)) { return false; }
    seenJobUrls.add(job.url);
    return true;
});
```
The mutable `seenJobUrls` set is threaded explicitly. -/

/-- The duplicate filter: returns the surviving records and the grown seen-set. -/
def dedupeAgainstSeen (seen : List String) : List JobRecord → List JobRecord × List String
  | [] => ([], seen)
  | j :: rest =>
    if j.url = "" then
      (j :: (dedupeAgainstSeen seen rest).1, (dedupeAgainstSeen seen rest).2)
    else if j.url ∈ seen then
      dedupeAgainstSeen seen rest
    else
      (j :: (dedupeAgainstSeen (j.url :: seen) rest).1, (dedupeAgainstSeen (j.url :: seen) rest).2)

/-- One controller call: truncate the candidate batch to the remaining quota,
then run the duplicate filter against the run's seen-set. -/
def controllerStep (maxJobs totalScraped : Nat) (seen : List String)
    (jobs : List JobRecord) : List JobRecord × List String :=
  let jobsToSave := if maxJobs > 0 then jobs.take (maxJobs - totalScraped) else jobs
  dedupeAgainstSeen seen jobsToSave

/-! ## Pagination decision (main.js 1166-1210)

```js
if (maxJobs > 0 && totalJobsScraped >= maxJobs) { return; }
if (maxJobs === 0 || totalJobsScraped < maxJobs) {
    const maxPages = maxJobs === 0 ? 50 : Math.ceil(maxJobs / 20);
    const nextPageNo = currentPageNo + 1;
    if (nextPageNo <= maxPages && jobsToSave.length > 0) { /* queue next page */ }
}
```
`totalJobsScraped` below is the value after the current page's batch was
saved, and `savedThisPage` is that batch's size (`jobsToSave.length`). -/

/-- The value `Math.ceil(maxJobs / 20)` for natural `maxJobs`. -/
def ceilPages (maxJobs : Nat) : Nat := (maxJobs + 19) / 20

/-- The page ceiling: fixed cap 50 for an unbounded run, else `ceil(maxJobs/20)`. -/
def maxPagesFor (maxJobs : Nat) : Nat :=
  if maxJobs = 0 then 50 else ceilPages maxJobs

/-- Whether the handler queues a next page after saving this page's batch. -/
def queuesNextPage (maxJobs totalAfter savedThisPage currentPageNo : Nat) : Bool :=
  if maxJobs > 0 && totalAfter ≥ maxJobs then false
  else if maxJobs = 0 || totalAfter < maxJobs then
    decide (currentPageNo + 1 ≤ maxPagesFor maxJobs) && decide (0 < savedThisPage)
  else false

/-- Number of page requests issued by a run that starts on page `pageNo` with
`total` records already saved, where `yields` lists the records saved on each
successively fetched page (the run also halts if the environment supplies no
further page).  The initial search page is page 1 with total 0. -/
def pagesIssued (maxJobs : Nat) : Nat → Nat → List Nat → Nat
  | _, _, [] => 0
  | pageNo, total, y :: ys =>
    1 + (if queuesNextPage maxJobs (total + y) y pageNo
         then pagesIssued maxJobs (pageNo + 1) (total + y) ys
         else 0)

/-! ## JSON values (results of `JSON.parse` on structured-data blocks)

Numbers are embedded as integers: every numeric literal the claims touch is
integral, and the source performs no fractional arithmetic on JSON numbers
other than the months→years conversion, which is modelled exactly below. -/

inductive Json where
  | null : Json
  | bool : Bool → Json
  | num : Int → Json
  | str : String → Json
  | arr : List Json → Json
  | obj : List (String × Json) → Json

/-- Property lookup `j[k]`; non-objects yield `undefined` (`none`). -/
def Json.getField : Json → String → Option Json
  | .obj fs, k => fs.lookup k
  | _, _ => none

/-- JavaScript truthiness of a JSON value. -/
def Json.isTruthyB : Json → Bool
  | .null => false
  | .bool b => b
  | .num n => n ≠ 0
  | .str s => s ≠ ""
  | .arr _ => true
  | .obj _ => true

/-- Decimal digits of a natural number, most significant first (fuel-driven). -/
def natDigitsRev (fuel n : Nat) : List Char :=
  match fuel with
  | 0 => []
  | f + 1 =>
    if n < 10 then [Char.ofNat (48 + n)]
    else Char.ofNat (48 + n % 10) :: natDigitsRev f (n / 10)

/-- Decimal rendering of a natural number. -/
def natToDecStr (n : Nat) : String := ((natDigitsRev (n + 1) n).reverse).asString

/-- Decimal rendering of an integer. -/
def intToDecStr (i : Int) : String :=
  if i < 0 then "-" ++ natToDecStr i.natAbs else natToDecStr i.toNat

mutual

/-- JS string coercion `` `${v}` `` of a JSON value (array elements that are
`null` coerce to "null" here rather than the empty string; no claim exercises
that corner). -/
def Json.coerceStr : Json → String
  | .null => "null"
  | .bool b => if b then "true" else "false"
  | .num n => intToDecStr n
  | .str s => s
  | .arr xs => String.intercalate "," (coerceList xs)
  | .obj _ => "[object Object]"

/-- Coercion of a list of JSON values (array `toString`). -/
def coerceList : List Json → List String
  | [] => []
  | x :: xs => Json.coerceStr x :: coerceList xs

end

/-- The value of `j.k || ''` coerced to a string. -/
def optTruthyStr : Option Json → String
  | some v => if v.isTruthyB then v.coerceStr else ""
  | none => ""

/-- The field `j.k` when truthy (the value of `j.k || <fallback>` chains). -/
def truthyField (j : Json) (k : String) : Option Json :=
  match j.getField k with
  | some v => if v.isTruthyB then some v else none
  | none => none

/-- Property access through an optional object (`(a || {}).k`). -/
def fieldOfOpt (v : Option Json) (k : String) : Option Json :=
  match v with
  | some j => j.getField k
  | none => none

/-- Strict comparison `j['@type'] === t` (string equality, as in the source). -/
def typeTagIs (j : Json) (t : String) : Bool :=
  match j.getField "@type" with
  | some (Json.str s) => s = t
  | _ => false

/-! ## extractExperience (main.js 110-124): regex scan over the description

```js
const expMatch = text.match(/(\d+)[\s-]+(?:to|-)[\s]*(\d+)[\s]*(?:years?|yrs?)/i);
if (expMatch) return `${expMatch[1]}-${expMatch[2]} years`;
const singleMatch = text.match(/(\d+)[\s]*(?:\+)?[\s]*(?:years?|yrs?)/i);
if (singleMatch) return `${singleMatch[1]}+ years`;
if (text.toLowerCase().includes('fresher')) return '0-1 years';
```
The two regexes are implemented as explicit scanners with the engine's
leftmost-first, greedy-with-backtracking semantics: the only backtracking
point is the `[\s-]+` separator (every other greedy piece is forced, since
giving characters back always meets a character its successor rejects). -/

/-- ASCII digit test (`\d`). -/
def isDigitCh (c : Char) : Bool := '0' ≤ c && c ≤ '9'

/-- The `[\s-]` class. -/
def isWsDash (c : Char) : Bool := isWsChar c || c = '-'

/-- Worker for `ciPreDrop`. -/
def ciPreDropAux : List Char → List Char → Option (List Char)
  | [], l => some l
  | _ :: _, [] => none
  | p :: ps, c :: cs => if p.toLower = c.toLower then ciPreDropAux ps cs else none

/-- Case-insensitive literal match; returns the remaining input on success. -/
def ciPreDrop (pat : String) (l : List Char) : Option (List Char) :=
  ciPreDropAux pat.toList l

/-- Test for `(?:years?|yrs?)` at the head of the input (the optional trailing `s`
never affects success). -/
def yearAt (l : List Char) : Bool :=
  (ciPreDrop "year" l).isSome || (ciPreDrop "yr" l).isSome

/-- Tail of the range regex after the `(?:to|-)` alternative:
`[\s]*(\d+)[\s]*(?:years?|yrs?)`. -/
def rangeFinish (d1 : List Char) (r : List Char) : Option (String × String) :=
  let r2 := r.dropWhile isWsChar
  let d2 := r2.takeWhile isDigitCh
  if d2 = [] then none
  else
    let r4 := (r2.drop d2.length).dropWhile isWsChar
    if yearAt r4 then some (d1.asString, d2.asString) else none

/-- Match of `(?:to|-)` followed by the tail (the two alternatives start with distinct
characters, so no backtracking between them is possible). -/
def rangeAfterSep (d1 : List Char) (l : List Char) : Option (String × String) :=
  match ciPreDrop "to" l with
  | some r => rangeFinish d1 r
  | none =>
    match l with
    | '-' :: r => rangeFinish d1 r
    | _ => none

/-- Backtracking over the `[\s-]+` separator length, longest first. -/
def rangeTailMatch (d1 : List Char) (rest : List Char) : Nat → Option (String × String)
  | 0 => none
  | k + 1 =>
    match rangeAfterSep d1 (rest.drop (k + 1)) with
    | some res => some res
    | none => rangeTailMatch d1 rest k

/-- Attempt of the range regex anchored at the current position. -/
def rangeMatchAt (l : List Char) : Option (String × String) :=
  let d1 := l.takeWhile isDigitCh
  if d1 = [] then none
  else
    let rest := l.drop d1.length
    rangeTailMatch d1 rest ((rest.takeWhile isWsDash).length)

/-- Leftmost match of the range regex. -/
def scanRange : List Char → Option (String × String)
  | [] => none
  | c :: cs =>
    match rangeMatchAt (c :: cs) with
    | some r => some r
    | none => scanRange cs

/-- Attempt of the single-number regex anchored at the current position.
If a `+` is present but the year literal does not follow, the no-`+`
alternative also fails (a `+` can start neither `[\s]*` progress nor the
year literal), so one deterministic pass suffices. -/
def singleMatchAt (l : List Char) : Option String :=
  let d1 := l.takeWhile isDigitCh
  if d1 = [] then none
  else
    let r := (l.drop d1.length).dropWhile isWsChar
    let r2 := match r with
      | '+' :: t => t
      | _ => r
    if yearAt (r2.dropWhile isWsChar) then some d1.asString else none

/-- Leftmost match of the single-number regex. -/
def scanSingle : List Char → Option String
  | [] => none
  | c :: cs =>
    match singleMatchAt (c :: cs) with
    | some r => some r
    | none => scanSingle cs

/-- main.js 110-124. -/
def extractExperience (text : String) : String :=
  if text = "" then "Not specified"
  else
    match scanRange text.toList with
    | some (a, b) => a ++ "-" ++ b ++ " years"
    | none =>
      match scanSingle text.toList with
      | some a => a ++ "+ years"
      | none =>
        if containsSub (toLowerStr text) "fresher" then "0-1 years" else "Not specified"

/-! ## stripHtml (main.js 128-131)

`html.replace(/<[^>]*>/g, ' ').replace(/\s+/g, ' ').trim()`. -/

/-- Input after the first `>` (the end of a `<[^>]*>` tag match), if any. -/
def gtSplit : List Char → Option (List Char)
  | [] => none
  | '>' :: rest => some rest
  | _ :: rest => gtSplit rest

/-- Model of `replace(/<[^>]*>/g, ' ')`, fuel-driven (`gtSplit` only shortens). -/
def stripTagsFuel : Nat → List Char → List Char
  | 0, l => l
  | _ + 1, [] => []
  | fuel + 1, '<' :: rest =>
    (match gtSplit rest with
     | some r => ' ' :: stripTagsFuel fuel r
     | none => '<' :: stripTagsFuel fuel rest)
  | fuel + 1, c :: rest => c :: stripTagsFuel fuel rest

/-- Model of `replace(/\s+/g, ' ')` via a previous-was-whitespace flag. -/
def collapseWsGo : Bool → List Char → List Char
  | _, [] => []
  | prevWs, c :: rest =>
    if isWsChar c then
      if prevWs then collapseWsGo true rest else ' ' :: collapseWsGo true rest
    else c :: collapseWsGo false rest

/-- main.js 128-131. -/
def stripHtml (html : String) : String :=
  if html = "" then ""
  else trimStr (collapseWsGo false (stripTagsFuel (html.toList.length + 1) html.toList)).asString

/-! ## parseJobPosting (main.js 67-106): JobPosting schema → JobRecord -/

/-- Joined `[locality, region, country].filter(Boolean).join(', ')`. -/
def joinTruthyParts (vs : List (Option Json)) : String :=
  String.intercalate ", "
    (vs.filterMap (fun o =>
      match o with
      | some v => if v.isTruthyB then some v.coerceStr else none
      | none => none))

/-- The description string `parseJobPosting` pattern-matches: the raw
`jobData.description || ''` (a truthy non-string description makes the real
code throw; such postings are excluded by the extractor's well-behavedness
side condition below, so the string read here is only consulted for string
or absent descriptions). -/
def descriptionStringOf (jobData : Json) : String :=
  match truthyField jobData "description" with
  | some (Json.str s) => s
  | some _ => ""
  | none => ""

/-- Whether `parseJobPosting` would throw on this posting: a truthy
non-string `description` reaches `text.match` / `html.replace`, which only
exist on strings. -/
def postingThrows (j : Json) : Bool :=
  match truthyField j "description" with
  | some (Json.str _) => false
  | some _ => true
  | none => false

/-- main.js 67-106. -/
def parseJobPosting (jobData : Json) : JobRecord :=
  let hiringOrg := truthyField jobData "hiringOrganization"
  let jobLocation := truthyField jobData "jobLocation"
  let address :=
    match fieldOfOpt jobLocation "address" with
    | some v => if v.isTruthyB then some v else none
    | none => none
  let location :=
    match address with
    | some (Json.str s) => s
    | _ =>
      joinTruthyParts
        [fieldOfOpt address "addressLocality",
         fieldOfOpt address "addressRegion",
         fieldOfOpt address "addressCountry"]
  let salary :=
    match truthyField jobData "baseSalary" with
    | none => "Not specified"
    | some baseSalary =>
      match truthyField baseSalary "value" with
      | none => "Not specified"
      | some value =>
        match value with
        | Json.obj _ =>
          trimStr (optTruthyStr (value.getField "minValue") ++ " - " ++
                   optTruthyStr (value.getField "maxValue") ++ " " ++
                   optTruthyStr (baseSalary.getField "currency"))
        | Json.arr _ =>
          trimStr (optTruthyStr (value.getField "minValue") ++ " - " ++
                   optTruthyStr (value.getField "maxValue") ++ " " ++
                   optTruthyStr (baseSalary.getField "currency"))
        | _ =>
          trimStr (value.coerceStr ++ " " ++ optTruthyStr (baseSalary.getField "currency"))
  { title := optTruthyStr (jobData.getField "title")
    company := optTruthyStr (fieldOfOpt hiringOrg "name")
    location := location
    salary := salary
    jobType := jsOr (optTruthyStr (jobData.getField "employmentType")) "Not specified"
    experience := extractExperience (descriptionStringOf jobData)
    postedDate := optTruthyStr (jobData.getField "datePosted")
    descriptionHtml := optTruthyStr (jobData.getField "description")
    descriptionText :=
      match truthyField jobData "description" with
      | some v => stripHtml v.coerceStr
      | none => ""
    url := optTruthyStr (jobData.getField "url")
    scrapedAt := "" }

/-! ## extractJobsViaJsonLD (main.js 12-63)

Each `<script type="application/ld+json">` block either fails `JSON.parse`
(`malformed`) or yields a JSON value.  The per-block `try` means a thrown
`TypeError` (property access on a `null` array element, or a throwing
posting) abandons only the remainder of that block; records already pushed
survive. -/

/-- One structured-data block. -/
inductive LdBlock where
  | malformed : LdBlock
  | parsed : Json → LdBlock

/-- Whether the block failed to parse. -/
def LdBlock.isMalformed : LdBlock → Bool
  | .malformed => true
  | .parsed _ => false

/-- Whether the value is JSON `null` (property access on it throws). -/
def isNullJson : Json → Bool
  | Json.null => true
  | _ => false

/-- The loop `for (const item of data) { if (item['@type'] === 'JobPosting') push }`:
a `null` element throws on the property access, ending the block. -/
def takeJobPostings : List Json → List JobRecord
  | [] => []
  | x :: rest =>
    if isNullJson x then []
    else if typeTagIs x "JobPosting" then
      (if postingThrows x then [] else parseJobPosting x :: takeJobPostings rest)
    else takeJobPostings rest

/-- The binding `const item = listItem.item || listItem` of the ItemList loop. -/
def itemOf (li : Json) : Json :=
  match li.getField "item" with
  | some v => if v.isTruthyB then v else li
  | none => li

/-- The ItemList loop (main.js 44-49); a `null` entry throws on
`listItem.item`, ending the block. -/
def takeItemEntries : List Json → List JobRecord
  | [] => []
  | li :: rest =>
    if isNullJson li then []
    else if typeTagIs (itemOf li) "JobPosting" then
      (if postingThrows (itemOf li) then []
       else parseJobPosting (itemOf li) :: takeItemEntries rest)
    else takeItemEntries rest

/-- The ItemList branch (main.js 43-50). -/
def itemListCase (data : Json) : List JobRecord :=
  if typeTagIs data "ItemList" then
    match data.getField "itemListElement" with
    | some le =>
      if le.isTruthyB then
        (match le with
         | Json.arr xs => takeItemEntries xs
         | _ => [])
      else []
    | none => []
  else []

/-- Records contributed by one parsed block (main.js 22-50): array of
postings, bare posting, `@graph`, then ItemList, in the source's order.
Iterating a truthy non-array `@graph` throws (or, for a string, yields
nothing), contributing no records. -/
def extractFromData (data : Json) : List JobRecord :=
  match data with
  | Json.arr items => takeJobPostings items
  | _ =>
    if typeTagIs data "JobPosting" then
      (if postingThrows data then [] else [parseJobPosting data])
    else
      match data.getField "@graph" with
      | some g =>
        if g.isTruthyB then
          (match g with
           | Json.arr xs => takeJobPostings xs
           | _ => [])
        else itemListCase data
      | none => itemListCase data

/-- Records contributed by one block. -/
def blockJobs : LdBlock → List JobRecord
  | .malformed => []
  | .parsed j => extractFromData j

/-- main.js 12-63: all blocks in order, each contributing independently. -/
def extractJobsViaJsonLD (blocks : List LdBlock) : List JobRecord :=
  blocks.flatMap blockJobs

/-! ## Spec-side posting count (refinement target for C3)

Modelled from the spec: "Recognizes four shapes ... a bare posting object;
an array of postings; an object exposing a `@graph` array of postings; an
`ItemList` whose `itemListElement` entries each wrap (or are) a posting.
A posting is recognized by a type-tag equal to `JobPosting`." -/

/-- Number of `JobPosting` entries in a list of candidates. -/
def countPostingsIn (xs : List Json) : Nat :=
  (xs.filter (fun x => typeTagIs x "JobPosting")).length

/-- Whether an `itemListElement` entry wraps (or is) a posting. -/
def itemEntryIsPosting (li : Json) : Bool :=
  typeTagIs (itemOf li) "JobPosting"

/-- Modelled from the spec: the number of well-formed `JobPosting` entries a
block carries, per the four recognized shapes. -/
def specPostingCount : LdBlock → Nat
  | .malformed => 0
  | .parsed j =>
    if typeTagIs j "JobPosting" then 1
    else
      match j with
      | Json.arr xs => countPostingsIn xs
      | _ =>
        match j.getField "@graph" with
        | some (Json.arr xs) => countPostingsIn xs
        | _ =>
          if typeTagIs j "ItemList" then
            match j.getField "itemListElement" with
            | some (Json.arr xs) => (xs.filter itemEntryIsPosting).length
            | _ => 0
          else 0

/-- Elements of an iterated posting array that make the real loop throw or
abort nothing: no `null` entries, and no posting with a truthy non-string
description. -/
def cleanElems (xs : List Json) : Bool :=
  xs.all (fun x =>
    !isNullJson x && (!(typeTagIs x "JobPosting") || !postingThrows x))

/-- Same for ItemList entries (the wrapped posting is what gets parsed). -/
def cleanEntries (xs : List Json) : Bool :=
  xs.all (fun li =>
    !isNullJson li && (!(typeTagIs (itemOf li) "JobPosting") || !postingThrows (itemOf li)))

/-- The `@graph` field, when truthy, is a clean posting array. -/
def graphClauseOk (j : Json) : Bool :=
  match j.getField "@graph" with
  | some g => !g.isTruthyB || (match g with | Json.arr xs => cleanElems xs | _ => false)
  | none => true

/-- The `itemListElement` field, when truthy, is a clean entry array. -/
def itemListClauseOk (j : Json) : Bool :=
  match j.getField "itemListElement" with
  | some le => !le.isTruthyB || (match le with | Json.arr xs => cleanEntries xs | _ => false)
  | none => true

/-- Well-behavedness of a parsed block: no iterated `null` elements, no
truthy non-array `@graph` / `itemListElement`, no throwing posting. -/
def wellBehavedJson (j : Json) : Bool :=
  match j with
  | Json.arr xs => cleanElems xs
  | _ =>
    if typeTagIs j "JobPosting" then !postingThrows j
    else graphClauseOk j && itemListClauseOk j

/-- Well-behavedness of a block. -/
def blockWellBehaved : LdBlock → Bool
  | .malformed => true
  | .parsed j => wellBehavedJson j

/-! ## normalizeExperienceFromJsonLd (main.js 276-285, part_000 301-310)

```js
const months = experienceRequirements.monthsOfExperience ?? experienceRequirements.months ?? null;
if (months == null) return '';
const m = Number(months);
if (!Number.isFinite(m) || m <= 0) return '';
const years = Math.max(0, Math.round((m / 12) * 10) / 10);
return `${years} years`;
```
For a positive integer `m`, `Math.round((m/12)*10)` equals the exact
half-up rounding `⌊(20m+12)/24⌋` (the float expression's error is far below
the distance `≥ 1/6` to the nearest half-integer whenever `10m/12` is not
itself exactly representable), and `years` prints without a trailing `.0`. -/

/-- Coalescing `a ?? b ?? null` then the `months == null` test: `none` means null. -/
def jsCoalesce (a b : Option Json) : Option Json :=
  match a with
  | some Json.null =>
    (match b with
     | some Json.null => none
     | some v => some v
     | none => none)
  | some v => some v
  | none =>
    (match b with
     | some Json.null => none
     | some v => some v
     | none => none)

/-- Partial model of JS `Number(v)` on JSON scalars (`none` = `NaN`;
numeric strings and non-scalars are conservatively `NaN`, which only
strengthens the '' branches the claims rely on). -/
def jsToNumber : Json → Option Int
  | Json.null => some 0
  | Json.bool b => some (if b then 1 else 0)
  | Json.num n => some n
  | Json.str _ => none
  | Json.arr _ => none
  | Json.obj _ => none

/-- A JS number `y10/10` (one decimal digit) as printed by `${...}`. -/
def natDeci (y10 : Nat) : String :=
  if y10 % 10 = 0 then natToDecStr (y10 / 10)
  else natToDecStr (y10 / 10) ++ "." ++ natToDecStr (y10 % 10)

/-- main.js 276-285. -/
def normalizeExperienceFromJsonLd (er : Option Json) : String :=
  match er with
  | none => ""
  | some v =>
    if !v.isTruthyB then ""
    else
      match v with
      | Json.str s => trimStr s
      | _ =>
        match jsCoalesce (v.getField "monthsOfExperience") (v.getField "months") with
        | none => ""
        | some mv =>
          match jsToNumber mv with
          | none => ""
          | some m =>
            if m ≤ 0 then ""
            else natDeci ((20 * m.toNat + 12) / 24) ++ " years"

/-- Modelled from the spec: "an explicit months-of-experience figure,
converted to years rounded to one decimal (`round(months/12 * 10)/10`),
rendered as `"{years} years"`". -/
def specYearsString (m : Nat) : String :=
  natDeci ((10 * m + 6) / 12) ++ " years"

/-! ## Detail-page fetch (part_000 407-603) and enrichment (part_000 609-678)

The network and the rendered document are explicit inputs: the fast
`gotScraping` attempt either fails at transport level (`none`) or returns a
status; the Playwright-session fallback returns a status; the document's
selector probes and JSON-LD scan are supplied as pre-extracted values, since
the classification and assembly logic under verification consumes only their
results. -/

/-- Description fragment as returned by `extractCleanSectionFromCheerio`. -/
structure DescPair where
  html : String := ""
  text : String := ""
deriving DecidableEq, Repr

/-- The enrichment payload assembled at part_000 581-593 (`null` fields are
`""`). -/
structure DetailPayload where
  descriptionHtml : String := ""
  descriptionText : String := ""
  experience : String := ""
  salary : String := ""
  jobType : String := ""
  title : String := ""
  company : String := ""
  location : String := ""
  postedDate : String := ""
  tags : String := ""
  jobId : String := ""
deriving DecidableEq, Repr

/-- Tagged outcome of one detail-page fetch (`noResult` is the JS `null`
returned for not-found pages and pages with no usable description). -/
inductive FetchResult where
  | blocked : FetchResult
  | noResult : FetchResult
  | ok : DetailPayload → FetchResult
deriving DecidableEq, Repr

/-- The parsed detail document, with each selector/JSON-LD probe's result
supplied by the environment. -/
structure DetailDoc where
  title : String := ""
  bodyText : String := ""
  primaryExtract : Option DescPair := none
  jsonLdJob : Option DetailPayload := none
  selectorExtract : Option DescPair := none
  pageFallbackExtract : Option DescPair := none
  probeExperience : String := ""
  probeSalary : String := ""
  probeJobType : String := ""
deriving DecidableEq, Repr

/-- One detail-page fetch's environment. -/
structure DetailFetchEnv where
  fastStatus : Option Nat := none
  fallbackStatus : Nat := 200
  doc : DetailDoc := {}
deriving DecidableEq, Repr

/-- main.js 132-136. -/
def isLikelyNotFoundPage (titleText bodyText : String) : Bool :=
  let title := toLowerStr titleText
  let body := toLowerStr bodyText
  containsSub title "404" || containsSub body "this page could not be found" ||
    containsSub body "page could not be found"

/-- part_000 476: the challenge-page title signatures (case-sensitive
`includes`). -/
def hasChallengeTitle (title : String) : Bool :=
  containsSub title "Just a moment" || containsSub title "Cloudflare" ||
    containsSub title "Security check"

/-- The block statuses of part_000 441/459. -/
def isBlockedStatus (s : Nat) : Bool := s = 403 || s = 503 || s = 429

/-- Field of the JSON-LD structured job, `""` when absent
(`const structured = jsonLdJob || {}`). -/
def structuredField (o : Option DetailPayload) (f : DetailPayload → String) : String :=
  match o with
  | some p => f p
  | none => ""

/-- part_000 472-593: challenge check, not-found check, description
cascade (primary selector, JSON-LD, broad selectors, Playwright page
fallback), then payload assembly with DOM probes preferred over
structured-data values. -/
def parseDetailDoc (doc : DetailDoc) : FetchResult :=
  if hasChallengeTitle doc.title then .blocked
  else if isLikelyNotFoundPage doc.title doc.bodyText then .noResult
  else
    let descriptionFromHtml :=
      match doc.primaryExtract with
      | some e => if e.text ≠ "" then some e else none
      | none => none
    let descriptionFromJsonLd :=
      match doc.jsonLdJob with
      | some p =>
        if p.descriptionText ≠ "" then
          some { html := p.descriptionHtml, text := p.descriptionText : DescPair }
        else none
      | none => none
    match descriptionFromHtml <|> descriptionFromJsonLd <|> doc.selectorExtract <|>
        doc.pageFallbackExtract with
    | none => .noResult
    | some d =>
      .ok
        { descriptionHtml := d.html
          descriptionText := d.text
          experience := jsOr doc.probeExperience (structuredField doc.jsonLdJob (fun p => p.experience))
          salary := jsOr doc.probeSalary (structuredField doc.jsonLdJob (fun p => p.salary))
          jobType := jsOr doc.probeJobType (structuredField doc.jsonLdJob (fun p => p.jobType))
          title := structuredField doc.jsonLdJob (fun p => p.title)
          company := structuredField doc.jsonLdJob (fun p => p.company)
          location := structuredField doc.jsonLdJob (fun p => p.location)
          postedDate := structuredField doc.jsonLdJob (fun p => p.postedDate)
          tags := structuredField doc.jsonLdJob (fun p => p.tags)
          jobId := structuredField doc.jsonLdJob (fun p => p.jobId) }

/-- part_000 452-470: the Playwright-session fallback request. -/
def fallbackFetch (env : DetailFetchEnv) : FetchResult :=
  if isBlockedStatus env.fallbackStatus then .blocked
  else if env.fallbackStatus ≠ 200 then .noResult
  else parseDetailDoc env.doc

/-- part_000 407-603: the fast path throws `blocked_http_{403,503,429}`
into the catch that issues the session fallback; any other non-200 status
returns `null`; a 200 proceeds to parsing.  A transport-level fast-path
failure also goes to the fallback. -/
def fetchFullDescription (env : DetailFetchEnv) : FetchResult :=
  match env.fastStatus with
  | some s =>
    if isBlockedStatus s then fallbackFetch env
    else if s ≠ 200 then .noResult
    else parseDetailDoc env.doc
  | none => fallbackFetch env

/-- part_000 643-656: field-by-field `fullDesc.x || job.x` merge (`url` and
`scrapedAt` untouched). -/
def mergeEnriched (job : JobRecord) (d : DetailPayload) : JobRecord :=
  { job with
    title := jsOr d.title job.title
    company := jsOr d.company job.company
    location := jsOr d.location job.location
    postedDate := jsOr d.postedDate job.postedDate
    descriptionHtml := jsOr d.descriptionHtml job.descriptionHtml
    descriptionText := jsOr d.descriptionText job.descriptionText
    experience := jsOr d.experience job.experience
    salary := jsOr d.salary job.salary
    jobType := jsOr d.jobType job.jobType
    tags := jsOr d.tags job.tags
    jobId := jsOr d.jobId job.jobId }

/-- The per-record body of the enrichment loop (part_000 629-659). -/
def enrichOne (fetch : String → FetchResult) (job : JobRecord) : JobRecord :=
  if job.url = "" then job
  else
    match fetch job.url with
    | .blocked => job
    | .noResult => job
    | .ok d =>
      if d.descriptionText ≠ "" || d.descriptionHtml ≠ "" then mergeEnriched job d else job

/-- Whether this record's fetch bumps `blockedCount`. -/
def countsBlocked (fetch : String → FetchResult) (job : JobRecord) : Bool :=
  job.url ≠ "" &&
    (match fetch job.url with
     | .blocked => true
     | _ => false)

/-- part_000 609-678: enrich each record (results joined in batch order) and
accumulate the run's blocked counter. -/
def enrichJobsWithFullDescriptions (fetch : String → FetchResult) :
    List JobRecord → List JobRecord × Nat
  | [] => ([], 0)
  | job :: rest =>
    if job.url = "" then
      (job :: (enrichJobsWithFullDescriptions fetch rest).1,
       (enrichJobsWithFullDescriptions fetch rest).2)
    else
      match fetch job.url with
      | .blocked =>
        (job :: (enrichJobsWithFullDescriptions fetch rest).1,
         (enrichJobsWithFullDescriptions fetch rest).2 + 1)
      | .noResult =>
        (job :: (enrichJobsWithFullDescriptions fetch rest).1,
         (enrichJobsWithFullDescriptions fetch rest).2)
      | .ok d =>
        ((if d.descriptionText ≠ "" || d.descriptionHtml ≠ "" then mergeEnriched job d
          else job) :: (enrichJobsWithFullDescriptions fetch rest).1,
         (enrichJobsWithFullDescriptions fetch rest).2)

/-! ## Markup (HTML) extractor (main.js 666-925)

The DOM query results are the extractor's inputs: a card is carried as the
ordered outcomes of each field's selector cascade (one entry per selector,
`""` where the selector matched nothing or an empty text/attribute), plus
the card's anchor list and `data-*` attributes.  All decision logic —
first-match-wins cascades, URL absolutization, the anchor and `data-href`
fallbacks, the title-or-URL retention rule, defaults — is translated from
`extractJobFromElement`. -/

/-- One candidate card, as seen through its selector probes. -/
structure CardView where
  titleTexts : List String := []
  urlHrefs : List String := []
  anchors : List (String × String) := []
  dataHref : String := ""
  companyTexts : List String := []
  locationTexts : List String := []
  expTexts : List String := []
  salTexts : List String := []
  dateTexts : List String := []
  snippetText : String := ""
  snippetHtml : String := ""
deriving DecidableEq, Repr

/-- Link-climbing fallback inputs (main.js 740-743). -/
structure CardFallback where
  title : String := ""
  url : String := ""
deriving DecidableEq, Repr

/-- A fallback-selector container, probed first for nested tuples. -/
structure ContainerView where
  tuples : List CardView := []
  self : CardView := {}
deriving DecidableEq, Repr

/-- One `a[href*="job-listings"]` anchor of the link-climbing phase. -/
structure LinkView where
  href : String := ""
  text : String := ""
  container : CardView := {}
deriving DecidableEq, Repr

/-- The rendered listing page as seen through the three selector phases. -/
structure ListingPage where
  primaryCards : List CardView := []
  fallbackGroups : List (List ContainerView) := []
  jobLinks : List LinkView := []
deriving DecidableEq, Repr

/-- Relative URLs become absolute against the site origin
(`url.startsWith('http') ? url : 'https://www.naukri.com' + url`). -/
def absolutize (u : String) : String :=
  if startsWithStr u "http" then u else "https://www.naukri.com" ++ u

/-- First selector yielding non-empty trimmed text, else `""`. -/
def firstNonEmptyTrim : List String → String
  | [] => ""
  | t :: rest =>
    let s := trimStr t
    if s = "" then firstNonEmptyTrim rest else s

/-- First selector with a truthy `href`, else `none` (main.js 791-800: the
href is used untrimmed). -/
def firstTruthy : List String → Option String
  | [] => none
  | h :: rest => if h = "" then firstTruthy rest else some h

/-- The resilient anchor scan (main.js 802-814): first anchor whose trimmed
href mentions the detail-URL path convention wins, also supplying a title if
none was found yet. -/
def scanAnchors (anchors : List (String × String)) (title : String) : String × String :=
  match anchors with
  | [] => ("", title)
  | (href, txt) :: rest =>
    let h := trimStr href
    if h = "" then scanAnchors rest title
    else if !(containsSub h "job-listings" || startsWithStr h "/job-listings") then
      scanAnchors rest title
    else (absolutize h, if title = "" then trimStr txt else title)

/-- The URL from the url-selector cascade, absolutized (main.js 781-800). -/
def cardUrl0 (c : CardView) : String :=
  match firstTruthy c.urlHrefs with
  | some h => absolutize h
  | none => ""

/-- URL and title after the anchor-scan supplement (main.js 802-814): the
anchor scan runs only when the cascade found no URL. -/
def cardAnchored (c : CardView) : String × String :=
  if cardUrl0 c = "" then scanAnchors c.anchors (firstNonEmptyTrim c.titleTexts)
  else (cardUrl0 c, firstNonEmptyTrim c.titleTexts)

/-- URL after the `data-href`/`data-url`/`data-jdurl` fallback
(main.js 815-818). -/
def cardUrl2 (c : CardView) : String :=
  if (cardAnchored c).1 = "" then
    (if trimStr c.dataHref = "" then "" else absolutize (trimStr c.dataHref))
  else (cardAnchored c).1

/-- Title after the link-provided fallback (main.js 820). -/
def cardTitle2 (c : CardView) (fb : CardFallback) : String :=
  if (cardAnchored c).2 = "" then fb.title else (cardAnchored c).2

/-- URL after the link-provided fallback (main.js 821). -/
def cardUrl3 (c : CardView) (fb : CardFallback) : String :=
  if cardUrl2 c = "" then fb.url else cardUrl2 c

/-- The retained record (main.js 906-918), with the `'Unknown Title'`
default and per-field `'Not specified'` defaults. -/
def mkCardRecord (c : CardView) (title url : String) : JobRecord :=
  { title := jsOr title "Unknown Title"
    company := firstNonEmptyTrim c.companyTexts
    location := firstNonEmptyTrim c.locationTexts
    salary := jsOr (firstNonEmptyTrim c.salTexts) "Not specified"
    experience := jsOr (firstNonEmptyTrim c.expTexts) "Not specified"
    jobType := "Not specified"
    postedDate := firstNonEmptyTrim c.dateTexts
    descriptionHtml := c.snippetHtml
    descriptionText := c.snippetText
    url := url
    scrapedAt := "" }

/-- main.js 760-924: a record is retained only when a non-empty title or
URL was found. -/
def extractJobFromElement (c : CardView) (fb : CardFallback) : Option JobRecord :=
  if cardTitle2 c fb ≠ "" || cardUrl3 c fb ≠ "" then
    some (mkCardRecord c (cardTitle2 c fb) (cardUrl3 c fb))
  else none

/-- The guarded push `if (job && job.url && !seenUrls.has(job.url)) { seenUrls.add; jobs.push }`. -/
def addJob (st : List JobRecord × List String) (oj : Option JobRecord) :
    List JobRecord × List String :=
  match oj with
  | none => st
  | some job =>
    if job.url ≠ "" ∧ job.url ∉ st.2 then (st.1 ++ [job], job.url :: st.2) else st

/-- Primary phase: every primary card through `extractJobFromElement`. -/
def processCards (st : List JobRecord × List String) (cards : List CardView) :
    List JobRecord × List String :=
  cards.foldl (fun s c => addJob s (extractJobFromElement c {})) st

/-- One fallback container (main.js 697-714): nested tuples take precedence
over treating the container itself as a card. -/
def processContainer (st : List JobRecord × List String) (cv : ContainerView) :
    List JobRecord × List String :=
  if cv.tuples.isEmpty then addJob st (extractJobFromElement cv.self {})
  else processCards st cv.tuples

/-- The fallback-selector loop (main.js 692-717): each non-empty group is
processed until some group leaves the job list non-empty. -/
def processGroups (st : List JobRecord × List String) :
    List (List ContainerView) → List JobRecord × List String
  | [] => st
  | g :: rest =>
    if g.isEmpty then processGroups st rest
    else
      if (g.foldl processContainer st).1.isEmpty then
        processGroups (g.foldl processContainer st) rest
      else g.foldl processContainer st

/-- The link-climbing phase (main.js 729-748). -/
def processLinks (st : List JobRecord × List String) :
    List LinkView → List JobRecord × List String
  | [] => st
  | lk :: rest =>
    if lk.href = "" then processLinks st rest
    else if absolutize lk.href ∈ st.2 then processLinks st rest
    else
      processLinks
        (addJob st (extractJobFromElement lk.container
          { title := trimStr lk.text, url := absolutize lk.href }))
        rest

/-- The card-selector stage (main.js 675-727): primary cards when any
matched, otherwise the fallback groups. -/
def htmlStage1 (p : ListingPage) : List JobRecord × List String :=
  if p.primaryCards.isEmpty then processGroups ([], []) p.fallbackGroups
  else processCards ([], []) p.primaryCards

/-- main.js 666-755: the card-selector stage; then, if it found nothing,
the link-climbing phase.  Returns the page's records. -/
def extractJobDataViaHTML (p : ListingPage) : List JobRecord :=
  (if (htmlStage1 p).1.isEmpty then processLinks (htmlStage1 p) p.jobLinks
   else htmlStage1 p).1

/-- State invariant: every accumulated record has a non-empty title and a
non-empty URL. -/
def goodState (st : List JobRecord × List String) : Prop :=
  ∀ j ∈ st.1, j.title ≠ "" ∧ j.url ≠ ""

/-- First-occurrence-wins URL deduplication, as an independent specification
of the per-page seen-set behaviour. -/
def dedupFirstByUrl (seen : List String) : List JobRecord → List JobRecord
  | [] => []
  | j :: rest =>
    if j.url ∈ seen then dedupFirstByUrl seen rest
    else j :: dedupFirstByUrl (j.url :: seen) rest

/-- The per-card candidates a card list feeds into the seen-set filter:
extraction results that exist and carry a URL. -/
def cardCandidates (cards : List CardView) : List JobRecord :=
  (cards.filterMap (fun c => extractJobFromElement c {})).filter (fun j => j.url ≠ "")

/-- Seen-set evolution of first-occurrence deduplication (the URLs
`dedupFirstByUrl` has absorbed). -/
def dedupSeen (s : List String) : List JobRecord → List String
  | [] => s
  | j :: rest => if j.url ∈ s then dedupSeen s rest else dedupSeen (j.url :: s) rest

/-- The cards one fallback container contributes (main.js 697-714): its
nested tuples when present, else the container itself. -/
def containerCards (cv : ContainerView) : List CardView :=
  if cv.tuples.isEmpty then [cv.self] else cv.tuples

/-- The card stream that determines the fallback phase's output: the first
non-empty group whose cards yield URL-bearing records (earlier groups leave
the state empty, so processing continues past them). -/
def groupsCandidates : List (List ContainerView) → List JobRecord
  | [] => []
  | g :: rest =>
    if g.isEmpty then groupsCandidates rest
    else if cardCandidates (g.flatMap containerCards) = [] then groupsCandidates rest
    else cardCandidates (g.flatMap containerCards)

/-- The records the link-climbing phase derives in anchor order, before any
seen-set filtering (main.js 729-748): one per anchor with a non-empty href
whose climbed card yields a URL-bearing record. -/
def linkRecords : List LinkView → List JobRecord
  | [] => []
  | lk :: rest =>
    if lk.href = "" then linkRecords rest
    else
      match extractJobFromElement lk.container
          { title := trimStr lk.text, url := absolutize lk.href } with
      | some j => if j.url = "" then linkRecords rest else j :: linkRecords rest
      | none => linkRecords rest

/-- State invariant: the accumulated URLs are pairwise distinct and all
recorded in the seen-set. -/
def urlsOkState (st : List JobRecord × List String) : Prop :=
  ((st.1.map (fun j => j.url)).Nodup) ∧ ∀ j ∈ st.1, j.url ∈ st.2

/-! ## sanitizeHtmlFragment (main.js 137-168)

The fragment is embedded as the DOM forest cheerio's parse produces (a
sibling-chained tree, avoiding nested `List` recursion).  The four passes
are translated in the source's order.  The `root.find('*')` snapshots
traverse in document order — parents before their descendants — so:
the unwrap pass reaches every original element even after its ancestors were
replaced by their children; and the empty-element pass judges each element on
its still-untouched subtree, i.e. an element whose only child is removed
later in the same pass survives it. -/

/-- A DOM forest: a sibling chain of text nodes and elements
(tag, attributes, children, next sibling). -/
inductive Forest where
  | nil : Forest
  | text : String → Forest → Forest
  | elem : String → List (String × String) → Forest → Forest → Forest
deriving DecidableEq, Repr

/-- Forest concatenation (splicing unwrapped children before the siblings). -/
def appendF : Forest → Forest → Forest
  | .nil, g => g
  | .text s r, g => .text s (appendF r g)
  | .elem t a c r, g => .elem t a c (appendF r g)

/-- The removed non-content tags
(`script, style, noscript, svg, img, iframe, canvas, form, input, button, link, meta`). -/
def noisyTags : List String :=
  ["script", "style", "noscript", "svg", "img", "iframe", "canvas", "form", "input",
   "button", "link", "meta"]

/-- The content allow-list. -/
def allowedTags : List String :=
  ["p", "ul", "ol", "li", "br", "strong", "b", "em", "i",
   "h1", "h2", "h3", "h4", "h5", "h6", "a"]

/-- The removal `root.find('script, style, ...').remove()`: matching elements vanish with
their subtrees. -/
def removeNoisy : Forest → Forest
  | .nil => .nil
  | .text s r => .text s (removeNoisy r)
  | .elem t a c r =>
    if toLowerStr t ∈ noisyTags then removeNoisy r
    else .elem t a (removeNoisy c) (removeNoisy r)

/-- The unwrap pass: an element whose (lower-cased) tag is non-empty and not
allow-listed is replaced by its contents (`$(el).replaceWith($(el).contents())`);
since the snapshot holds every original element, unwrapping acts recursively. -/
def unwrapF : Forest → Forest
  | .nil => .nil
  | .text s r => .text s (unwrapF r)
  | .elem t a c r =>
    if toLowerStr t = "" ∨ toLowerStr t ∈ allowedTags then .elem t a (unwrapF c) (unwrapF r)
    else appendF (unwrapF c) (unwrapF r)

/-- The attribute pass: every attribute except `href` is removed. -/
def stripAttrsF : Forest → Forest
  | .nil => .nil
  | .text s r => .text s (stripAttrsF r)
  | .elem t a c r =>
    .elem t (a.filter (fun p => toLowerStr p.1 = "href")) (stripAttrsF c) (stripAttrsF r)

/-- Count `$el.children().length`: number of element children (top level only). -/
def elemCount : Forest → Nat
  | .nil => 0
  | .text _ r => elemCount r
  | .elem _ _ _ r => 1 + elemCount r

/-- Text `$el.text()`: concatenated descendant text. -/
def textOfF : Forest → String
  | .nil => ""
  | .text s r => s ++ textOfF r
  | .elem _ _ c r => textOfF c ++ textOfF r

/-- The empty-element pass: a childless element with no (trimmed) text is
removed.  The snapshot's document order means each element is judged before
anything inside it was removed, so emptiness is evaluated on the incoming
subtree. -/
def removeEmptyF : Forest → Forest
  | .nil => .nil
  | .text s r => .text s (removeEmptyF r)
  | .elem t a c r =>
    if elemCount c = 0 ∧ trimStr (textOfF c) = "" then removeEmptyF r
    else .elem t a (removeEmptyF c) (removeEmptyF r)

/-- main.js 137-168 on the parsed fragment forest. -/
def sanitizeHtmlFragment (f : Forest) : Forest :=
  removeEmptyF (stripAttrsF (unwrapF (removeNoisy f)))

/-- Checker for the claimed output shape: every element carries an
allow-listed tag and no attribute besides `href`. -/
def sanitizedShapeOk : Forest → Bool
  | .nil => true
  | .text _ r => sanitizedShapeOk r
  | .elem t a c r =>
    decide (toLowerStr t ∈ allowedTags) && a.all (fun p => toLowerStr p.1 = "href") &&
      sanitizedShapeOk c && sanitizedShapeOk r

/-- Every element of the forest has a non-empty tag name (true of every
DOM the HTML parser produces; the source's `!tag` test is a dead guard). -/
def tagsNonEmpty : Forest → Bool
  | .nil => true
  | .text _ r => tagsNonEmpty r
  | .elem t _ c r => decide (toLowerStr t ≠ "") && tagsNonEmpty c && tagsNonEmpty r

/-- Every element's lowered tag is allow-listed. -/
def tagsAllowed : Forest → Bool
  | .nil => true
  | .text _ r => tagsAllowed r
  | .elem t _ c r => decide (toLowerStr t ∈ allowedTags) && tagsAllowed c && tagsAllowed r

/-! ## Lemmas about the duplicate filter -/

/-- The seen-set never loses a URL. -/
theorem dedupe_seen_mono (js : List JobRecord) :
    ∀ seen u, u ∈ seen → u ∈ (dedupeAgainstSeen seen js).2 := by
  induction js with
  | nil => intro seen u h; simpa [dedupeAgainstSeen] using h
  | cons j rest ih =>
    intro seen u h
    by_cases hk : j.url = ""
    · simpa [dedupeAgainstSeen, hk] using ih seen u h
    · by_cases hmem : j.url ∈ seen
      · simpa [dedupeAgainstSeen, hk, hmem] using ih seen u h
      · simpa [dedupeAgainstSeen, hk, hmem] using
          ih (j.url :: seen) u (List.mem_cons_of_mem _ h)

/-- A surviving record with a URL was not previously seen. -/
theorem dedupe_out_fresh (js : List JobRecord) :
    ∀ seen j, j ∈ (dedupeAgainstSeen seen js).1 → j.url ≠ "" → j.url ∉ seen := by
  induction js with
  | nil => intro seen j h; simp [dedupeAgainstSeen] at h
  | cons k rest ih =>
    intro seen j h hurl
    by_cases hk : k.url = ""
    · simp only [dedupeAgainstSeen, hk, if_pos] at h
      simp only [List.mem_cons] at h
      rcases h with rfl | h'
      · exact absurd hk hurl
      · exact ih seen j h' hurl
    · by_cases hmem : k.url ∈ seen
      · simp only [dedupeAgainstSeen, if_neg hk, if_pos hmem] at h
        exact ih seen j h hurl
      · simp only [dedupeAgainstSeen, if_neg hk, if_neg hmem, List.mem_cons] at h
        rcases h with rfl | h'
        · exact hmem
        · intro hmem2
          exact ih _ j h' hurl (List.mem_cons_of_mem _ hmem2)

/-- A surviving record's URL ends up in the grown seen-set. -/
theorem dedupe_out_added (js : List JobRecord) :
    ∀ seen j, j ∈ (dedupeAgainstSeen seen js).1 → j.url ≠ "" →
      j.url ∈ (dedupeAgainstSeen seen js).2 := by
  induction js with
  | nil => intro seen j h; simp [dedupeAgainstSeen] at h
  | cons k rest ih =>
    intro seen j h hurl
    by_cases hk : k.url = ""
    · simp only [dedupeAgainstSeen, hk, if_pos, List.mem_cons] at h ⊢
      rcases h with rfl | h'
      · exact absurd hk hurl
      · exact ih seen j h' hurl
    · by_cases hmem : k.url ∈ seen
      · simp only [dedupeAgainstSeen, if_neg hk, if_pos hmem] at h ⊢
        exact ih seen j h hurl
      · simp only [dedupeAgainstSeen, if_neg hk, if_neg hmem, List.mem_cons] at h ⊢
        rcases h with rfl | h'
        · exact dedupe_seen_mono rest (j.url :: seen) j.url (List.mem_cons_self _ _)
        · exact ih _ j h' hurl

/-- A record without a URL always passes the duplicate filter. -/
theorem dedupe_empty_passes (js : List JobRecord) :
    ∀ seen j, j ∈ js → j.url = "" → j ∈ (dedupeAgainstSeen seen js).1 := by
  induction js with
  | nil => intro seen j h; simp at h
  | cons k rest ih =>
    intro seen j h hurl
    rcases List.mem_cons.mp h with rfl | h'
    · simp [dedupeAgainstSeen, hurl]
    · by_cases hk : k.url = ""
      · simp only [dedupeAgainstSeen, hk, if_pos, List.mem_cons]
        exact Or.inr (ih seen j h' hurl)
      · by_cases hmem : k.url ∈ seen
        · simp only [dedupeAgainstSeen, if_neg hk, if_pos hmem]
          exact ih seen j h' hurl
        · simp only [dedupeAgainstSeen, if_neg hk, if_neg hmem, List.mem_cons]
          exact Or.inr (ih _ j h' hurl)

/-- Enrichment never touches a record's URL. -/
theorem enrichOne_url (fetch : String → FetchResult) (job : JobRecord) :
    (enrichOne fetch job).url = job.url := by
  unfold enrichOne
  split
  · rfl
  · split
    · rfl
    · rfl
    · split <;> simp [mergeEnriched]

/-- The enrichment loop is the per-record body mapped in batch order, with
the blocked counter counting exactly the blocked fetches. -/
theorem enrichJobs_eq_map (fetch : String → FetchResult) (jobs : List JobRecord) :
    enrichJobsWithFullDescriptions fetch jobs =
      (jobs.map (enrichOne fetch), (jobs.filter (countsBlocked fetch)).length) := by
  induction jobs with
  | nil => rfl
  | cons j rest ih =>
    simp only [enrichJobsWithFullDescriptions, List.map_cons, List.filter_cons]
    by_cases hu : j.url = ""
    · simp [hu, ih, enrichOne, countsBlocked]
    · simp only [hu, if_neg, ite_false]
      cases hf : fetch j.url with
      | blocked => simp [ih, enrichOne, countsBlocked, hu, hf]
      | noResult => simp [ih, enrichOne, countsBlocked, hu, hf]
      | ok d => simp [ih, enrichOne, countsBlocked, hu, hf]

/-- C1: within one run, a controller call never emits a record whose
(non-empty) URL is already in the seen-set; the seen-set only grows and
receives every surviving record's URL; a candidate with an empty URL always
passes the duplicate filter; and enrichment preserves URLs, so the persisted
batch carries exactly the emitted URLs. -/
theorem controller_dedup_invariant (maxJobs totalScraped : Nat) (seen : List String)
    (jobs : List JobRecord) :
    (∀ j ∈ (controllerStep maxJobs totalScraped seen jobs).1, j.url ≠ "" → j.url ∉ seen) ∧
    (∀ u ∈ seen, u ∈ (controllerStep maxJobs totalScraped seen jobs).2) ∧
    (∀ j ∈ (controllerStep maxJobs totalScraped seen jobs).1, j.url ≠ "" →
      j.url ∈ (controllerStep maxJobs totalScraped seen jobs).2) ∧
    (∀ j ∈ jobs, j.url = "" → j ∈ (dedupeAgainstSeen seen jobs).1) ∧
    (∀ fetch : String → FetchResult,
      ((enrichJobsWithFullDescriptions fetch
          (controllerStep maxJobs totalScraped seen jobs).1).1).map (fun j => j.url) =
        ((controllerStep maxJobs totalScraped seen jobs).1).map (fun j => j.url)) := by
  refine ⟨?_, ?_, ?_, ?_, ?_⟩
  · intro j hj hurl
    exact dedupe_out_fresh _ seen j hj hurl
  · intro u hu
    exact dedupe_seen_mono _ seen u hu
  · intro j hj hurl
    exact dedupe_out_added _ seen j hj hurl
  · intro j hj hurl
    exact dedupe_empty_passes jobs seen j hj hurl
  · intro fetch
    rw [enrichJobs_eq_map]
    simp [enrichOne_url]

/-- Witness for C1 at a concrete controller call. -/
theorem controller_dedup_invariant_witness :
    "u1" ∈ (controllerStep 5 0 ["u1"] [{ url := "u2" }]).2 ∧
    ({ url := "" , title := "t" } : JobRecord) ∈
      (dedupeAgainstSeen ["u1"] [{ url := "", title := "t" }]).1 := by
  constructor
  · exact (controller_dedup_invariant 5 0 ["u1"] [{ url := "u2" }]).2.1 "u1" (by decide)
  · exact (controller_dedup_invariant 5 0 ["u1"] [{ url := "", title := "t" }]).2.2.2.1
      { url := "", title := "t" } (by decide) (by decide)

/-! ## Lemmas about the structured-data extractor -/

/-- On a clean posting array, the loop finds exactly the tagged entries. -/
theorem takeJobPostings_length (xs : List Json) (h : cleanElems xs = true) :
    (takeJobPostings xs).length = countPostingsIn xs := by
  induction xs with
  | nil => rfl
  | cons x rest ih =>
    simp only [cleanElems, List.all_cons, Bool.and_eq_true, Bool.not_eq_true'] at h
    obtain ⟨⟨hnn, hok⟩, hrest⟩ := h
    have ih' := ih (by simpa [cleanElems] using hrest)
    by_cases ht : typeTagIs x "JobPosting" = true
    · have hthrow : postingThrows x = false := by
        simp only [ht, Bool.not_true, Bool.false_or, Bool.not_eq_true'] at hok
        exact hok
      simp [takeJobPostings, hnn, ht, hthrow, countPostingsIn, List.filter_cons, ih']
    · simp only [Bool.not_eq_true] at ht
      simp [takeJobPostings, hnn, ht, countPostingsIn, List.filter_cons]
      simpa [countPostingsIn] using ih'

/-- On a clean ItemList element array, the loop finds exactly the wrapped
postings. -/
theorem takeItemEntries_length (xs : List Json) (h : cleanEntries xs = true) :
    (takeItemEntries xs).length = (xs.filter itemEntryIsPosting).length := by
  induction xs with
  | nil => rfl
  | cons li rest ih =>
    simp only [cleanEntries, List.all_cons, Bool.and_eq_true, Bool.not_eq_true'] at h
    obtain ⟨⟨hnn, hok⟩, hrest⟩ := h
    have ih' := ih (by simpa [cleanEntries] using hrest)
    by_cases ht : typeTagIs (itemOf li) "JobPosting" = true
    · have hthrow : postingThrows (itemOf li) = false := by
        simp only [ht, Bool.not_true, Bool.false_or, Bool.not_eq_true'] at hok
        exact hok
      simp [takeItemEntries, hnn, ht, hthrow, itemEntryIsPosting, List.filter_cons, ih']
    · simp only [Bool.not_eq_true] at ht
      simp [takeItemEntries, hnn, ht, itemEntryIsPosting, List.filter_cons, ih']

/-- The ItemList branch refines the spec's ItemList count under the
well-behavedness clause for `itemListElement`. -/
theorem itemListCase_spec (j : Json) (hclause : itemListClauseOk j = true) :
    (itemListCase j).length =
      (if typeTagIs j "ItemList" then
        (match j.getField "itemListElement" with
         | some (Json.arr xs) => (xs.filter itemEntryIsPosting).length
         | _ => 0)
       else 0) := by
  by_cases ht : typeTagIs j "ItemList" = true
  · simp only [itemListCase, ht, if_true]
    cases hle : j.getField "itemListElement" with
    | none => simp
    | some le =>
      unfold itemListClauseOk at hclause
      rw [hle] at hclause
      by_cases hlt : le.isTruthyB = true
      · simp only [hlt, Bool.not_true, Bool.false_or] at hclause
        cases le with
        | arr xs => simp [hlt, takeItemEntries_length xs hclause]
        | null => simp at hclause
        | bool b => simp at hclause
        | num n => simp at hclause
        | str s => simp at hclause
        | obj fs => simp at hclause
      · cases le with
        | arr xs => simp [Json.isTruthyB] at hlt
        | null => simp [Bool.not_eq_true] at hlt; simp [hlt]
        | bool b => simp only [Bool.not_eq_true] at hlt; simp [hlt]
        | num n => simp only [Bool.not_eq_true] at hlt; simp [hlt]
        | str s => simp only [Bool.not_eq_true] at hlt; simp [hlt]
        | obj fs => simp [Json.isTruthyB] at hlt
  · simp only [Bool.not_eq_true] at ht
    simp [itemListCase, ht]

/-- Per-block refinement: a well-behaved parsed block contributes exactly
the spec's posting count. -/
theorem extractFromData_length (j : Json) (h : wellBehavedJson j = true) :
    (extractFromData j).length = specPostingCount (LdBlock.parsed j) := by
  cases j with
  | arr xs =>
    simp only [wellBehavedJson] at h
    have := takeJobPostings_length xs h
    simp only [extractFromData, specPostingCount]
    rw [if_neg (by simp [typeTagIs, Json.getField])]
    exact this
  | null => rfl
  | bool b => rfl
  | num n => rfl
  | str s => rfl
  | obj fs =>
    by_cases ht : typeTagIs (Json.obj fs) "JobPosting" = true
    · simp only [wellBehavedJson, ht, if_true, Bool.not_eq_true'] at h
      simp [extractFromData, specPostingCount, ht, h]
    · rw [show wellBehavedJson (Json.obj fs) =
          (if typeTagIs (Json.obj fs) "JobPosting" then !postingThrows (Json.obj fs)
           else graphClauseOk (Json.obj fs) && itemListClauseOk (Json.obj fs)) from rfl,
        if_neg ht, Bool.and_eq_true] at h
      obtain ⟨hg, hle⟩ := h
      have hspec := itemListCase_spec (Json.obj fs) hle
      simp only [extractFromData, specPostingCount, ht, if_false]
      cases hgf : (Json.obj fs).getField "@graph" with
      | some g =>
        unfold graphClauseOk at hg
        rw [hgf] at hg
        by_cases hgt : g.isTruthyB = true
        · simp only [hgt, Bool.not_true, Bool.false_or] at hg
          cases g with
          | arr xs => simp [hgt, takeJobPostings_length xs hg]
          | null => simp at hg
          | bool b => simp at hg
          | num n => simp at hg
          | str s => simp at hg
          | obj fs2 => simp at hg
        · cases g with
          | arr xs => simp [Json.isTruthyB] at hgt
          | null =>
            simp only [Bool.not_eq_true] at hgt
            simpa [hgt, ht] using hspec
          | bool b =>
            simp only [Bool.not_eq_true] at hgt
            simpa [hgt, ht] using hspec
          | num n =>
            simp only [Bool.not_eq_true] at hgt
            simpa [hgt, ht] using hspec
          | str s =>
            simp only [Bool.not_eq_true] at hgt
            simpa [hgt, ht] using hspec
          | obj fs2 => simp [Json.isTruthyB] at hgt
      | none => simpa [ht] using hspec

/-- Malformed blocks contribute nothing and do not disturb the others. -/
theorem extract_filter_malformed (blocks : List LdBlock) :
    extractJobsViaJsonLD blocks =
      extractJobsViaJsonLD (blocks.filter (fun b => !b.isMalformed)) := by
  induction blocks with
  | nil => rfl
  | cons b rest ih =>
    cases b with
    | malformed =>
      simpa [extractJobsViaJsonLD, LdBlock.isMalformed, blockJobs, List.filter_cons] using ih
    | parsed j =>
      simp only [extractJobsViaJsonLD, List.filter_cons, LdBlock.isMalformed, Bool.not_false,
        if_pos, List.flatMap_cons]
      simpa [extractJobsViaJsonLD] using congrArg (blockJobs (LdBlock.parsed j) ++ ·) ih

/-- C3 counterexample: a valid-JSON block that is an array holding a `null`
before a well-formed `JobPosting` entry.  The spec counts one posting, but
the loop's `item['@type']` throws on the `null`, the per-block catch
swallows it, and the extractor returns no record at all. -/
theorem jsonld_extractor_cex :
    extractJobsViaJsonLD [LdBlock.parsed (Json.arr [Json.null,
        Json.obj [("@type", Json.str "JobPosting"), ("title", Json.str "Dev")]])] = [] ∧
    specPostingCount (LdBlock.parsed (Json.arr [Json.null,
        Json.obj [("@type", Json.str "JobPosting"), ("title", Json.str "Dev")]])) = 1 := by
  exact ⟨rfl, rfl⟩

/-- C3 (amended): malformed blocks are skipped without disturbing the
others; if every block is malformed the result is empty; and on blocks
whose iterated arrays contain no `null` entries, no truthy non-array
`@graph`/`itemListElement`, and no posting whose truthy description is a
non-string, the extractor returns exactly the spec's count of well-formed
`JobPosting` entries across the four recognized shapes. -/
theorem jsonld_extractor_amended (blocks : List LdBlock) :
    extractJobsViaJsonLD blocks =
      extractJobsViaJsonLD (blocks.filter (fun b => !b.isMalformed)) ∧
    ((∀ b ∈ blocks, b.isMalformed = true) → extractJobsViaJsonLD blocks = []) ∧
    ((∀ b ∈ blocks, blockWellBehaved b = true) →
      (extractJobsViaJsonLD blocks).length = (blocks.map specPostingCount).sum) := by
  refine ⟨extract_filter_malformed blocks, ?_, ?_⟩
  · intro h
    induction blocks with
    | nil => rfl
    | cons b rest ih =>
      have hb := h b (List.mem_cons_self _ _)
      cases b with
      | malformed =>
        simpa [extractJobsViaJsonLD, blockJobs] using
          ih (fun b' hb' => h b' (List.mem_cons_of_mem _ hb'))
      | parsed j => simp [LdBlock.isMalformed] at hb
  · intro h
    induction blocks with
    | nil => rfl
    | cons b rest ih =>
      have hb := h b (List.mem_cons_self _ _)
      have hrest := ih (fun b' hb' => h b' (List.mem_cons_of_mem _ hb'))
      simp only [extractJobsViaJsonLD, List.flatMap_cons, List.length_append, List.map_cons,
        List.sum_cons]
      simp only [extractJobsViaJsonLD] at hrest
      rw [hrest]
      cases b with
      | malformed => simp [blockJobs, specPostingCount]
      | parsed j =>
        have := extractFromData_length j (by simpa [blockWellBehaved] using hb)
        simp only [blockJobs]
        rw [this]

/-- Witness for C3 (amended) on a concrete mixed input: one malformed block,
one `@graph` block with a single posting, one ItemList block wrapping a
posting. -/
theorem jsonld_extractor_amended_witness :
    (extractJobsViaJsonLD [LdBlock.malformed,
      LdBlock.parsed (Json.obj [("@graph",
        Json.arr [Json.obj [("@type", Json.str "JobPosting"), ("title", Json.str "A")]])]),
      LdBlock.parsed (Json.obj [("@type", Json.str "ItemList"),
        ("itemListElement", Json.arr [Json.obj [("item",
          Json.obj [("@type", Json.str "JobPosting"), ("title", Json.str "B")])]])])]).length =
      ([LdBlock.malformed,
        LdBlock.parsed (Json.obj [("@graph",
          Json.arr [Json.obj [("@type", Json.str "JobPosting"), ("title", Json.str "A")]])]),
        LdBlock.parsed (Json.obj [("@type", Json.str "ItemList"),
          ("itemListElement", Json.arr [Json.obj [("item",
            Json.obj [("@type", Json.str "JobPosting"),
              ("title", Json.str "B")])]])])].map specPostingCount).sum := by
  exact (jsonld_extractor_amended _).2.2 (by decide)

/-! ## Lemmas about the pagination decision -/

/-- A positive queue decision keeps the next page within the ceiling. -/
theorem queuesNext_page_le (maxJobs totalAfter saved pageNo : Nat)
    (h : queuesNextPage maxJobs totalAfter saved pageNo = true) :
    pageNo + 1 ≤ maxPagesFor maxJobs := by
  unfold queuesNextPage at h
  split at h
  · simp at h
  · split at h
    · simp only [Bool.and_eq_true, decide_eq_true_eq] at h
      exact h.1
    · simp at h

/-- Page-count bound: starting at `pageNo ≤ ceiling`, at most
`ceiling + 1 - pageNo` further pages are processed. -/
theorem pagesIssued_le (maxJobs : Nat) (ys : List Nat) :
    ∀ pageNo total, pageNo ≤ maxPagesFor maxJobs →
      pagesIssued maxJobs pageNo total ys ≤ maxPagesFor maxJobs + 1 - pageNo := by
  induction ys with
  | nil =>
    intro pageNo total h
    simp only [pagesIssued]
    omega
  | cons y ys ih =>
    intro pageNo total h
    simp only [pagesIssued]
    cases hq : queuesNextPage maxJobs (total + y) y pageNo with
    | true =>
      have hle := queuesNext_page_le maxJobs (total + y) y pageNo hq
      have hrec := ih (pageNo + 1) (total + y) hle
      simp only [hq, if_true]
      omega
    | false =>
      simp [hq]
      omega

/-- C2: with quota `Q > 0` and page size 20, a run starting on page 1 issues
at most `ceil(Q/20)` page requests; and the handler queues no next page
exactly when the cumulative saved count meets the quota, the next page
number exceeds the ceiling (`ceil(Q/20)` for `Q > 0`, the fixed cap 50 for
`Q = 0`), or zero new records were saved on the current page.  The last
conjunct pins the ceiling to the mathematical `ceil(Q/20)`. -/
theorem pagination_ceiling_law (maxJobs : Nat) (yields : List Nat) :
    (0 < maxJobs → pagesIssued maxJobs 1 0 yields ≤ ceilPages maxJobs) ∧
    (∀ total saved pageNo,
      queuesNextPage maxJobs (total + saved) saved pageNo = false ↔
        ((0 < maxJobs ∧ maxJobs ≤ total + saved) ∨ maxPagesFor maxJobs < pageNo + 1 ∨
          saved = 0)) ∧
    (0 < maxJobs →
      maxPagesFor maxJobs = ceilPages maxJobs ∧
      maxJobs ≤ 20 * ceilPages maxJobs ∧ 20 * ceilPages maxJobs < maxJobs + 20) := by
  refine ⟨?_, ?_, ?_⟩
  · intro hq
    have h1 : 1 ≤ maxPagesFor maxJobs := by
      unfold maxPagesFor ceilPages
      split <;> omega
    have h2 := pagesIssued_le maxJobs yields 1 0 h1
    have h3 : maxPagesFor maxJobs = ceilPages maxJobs := by
      unfold maxPagesFor
      rw [if_neg (by omega)]
    omega
  · intro total saved pageNo
    unfold queuesNextPage
    split
    · next h =>
      simp only [Bool.and_eq_true, decide_eq_true_eq] at h
      exact iff_of_true rfl (Or.inl ⟨h.1, h.2⟩)
    · next h =>
      simp only [Bool.and_eq_true, decide_eq_true_eq] at h
      split
      · next h2 =>
        simp only [Bool.or_eq_true, decide_eq_true_eq] at h2
        rw [Bool.eq_false_iff]
        simp only [ne_eq, Bool.and_eq_true, decide_eq_true_eq, not_and]
        constructor
        · intro hc
          by_cases hpage : pageNo + 1 ≤ maxPagesFor maxJobs
          · have := hc hpage
            omega
          · omega
        · intro hc hpage hsaved
          rcases hc with hc | hc | hc <;> omega
      · next h2 =>
        simp only [Bool.or_eq_true, decide_eq_true_eq, not_or] at h2
        exact iff_of_true rfl (by omega)
  · intro hq
    refine ⟨?_, by unfold ceilPages; omega, by unfold ceilPages; omega⟩
    unfold maxPagesFor
    rw [if_neg (by omega)]

/-- Witness for C2 at a concrete run (quota 30, two pages yielding 20 and
10 records). -/
theorem pagination_ceiling_law_witness :
    pagesIssued 30 1 0 [20, 10] ≤ ceilPages 30 ∧
    queuesNextPage 30 (20 + 10) 10 2 = false := by
  constructor
  · exact (pagination_ceiling_law 30 [20, 10]).1 (by decide)
  · exact ((pagination_ceiling_law 30 [20, 10]).2.1 20 10 2).mpr (Or.inl ⟨by decide, by decide⟩)

/-! ## Detail-fetch classification and enrichment theorems -/

/-- C4 counterexample: a detail response whose document title carries a
challenge signature but whose status is 404 is classified as `null`
(not-found), not `Blocked` — the title is only inspected after a 200. -/
theorem detail_fetch_challenge_status_cex :
    hasChallengeTitle "Just a moment..." = true ∧
    fetchFullDescription
        { fastStatus := some 404, fallbackStatus := 200,
          doc := { title := "Just a moment..." } } = FetchResult.noResult ∧
    FetchResult.noResult ≠ FetchResult.blocked := by
  refine ⟨by decide, by decide, by decide⟩

/-- C4 (amended): a fast-path 403/503/429 defers to the session fallback
rather than classifying immediately; the fetch is `Blocked` whenever the
fallback answers 403/503/429, and whenever a 200 document carries a
challenge-signature title; on a `Blocked` outcome the record is returned
unchanged and the blocked counter counts exactly the blocked fetches. -/
theorem detail_fetch_classification_amended :
    (∀ env : DetailFetchEnv, ∀ s : Nat, env.fastStatus = some s → isBlockedStatus s = true →
      fetchFullDescription env = fallbackFetch env) ∧
    (∀ env : DetailFetchEnv,
      (env.fastStatus = none ∨ ∃ s, env.fastStatus = some s ∧ isBlockedStatus s = true) →
      isBlockedStatus env.fallbackStatus = true →
      fetchFullDescription env = FetchResult.blocked) ∧
    (∀ env : DetailFetchEnv, env.fastStatus = some 200 →
      hasChallengeTitle env.doc.title = true → fetchFullDescription env = FetchResult.blocked) ∧
    (∀ env : DetailFetchEnv, env.fastStatus = none → env.fallbackStatus = 200 →
      hasChallengeTitle env.doc.title = true → fetchFullDescription env = FetchResult.blocked) ∧
    (∀ (fetch : String → FetchResult) (job : JobRecord), job.url ≠ "" →
      fetch job.url = FetchResult.blocked → enrichOne fetch job = job) ∧
    (∀ (fetch : String → FetchResult) (jobs : List JobRecord),
      enrichJobsWithFullDescriptions fetch jobs =
        (jobs.map (enrichOne fetch), (jobs.filter (countsBlocked fetch)).length)) := by
  refine ⟨?_, ?_, ?_, ?_, ?_, ?_⟩
  · intro env s hs hb
    unfold fetchFullDescription
    rw [hs]
    simp [hb]
  · intro env hor hb
    rcases hor with hn | ⟨s, hs, hbs⟩
    · unfold fetchFullDescription
      rw [hn]
      unfold fallbackFetch
      rw [if_pos hb]
    · unfold fetchFullDescription
      rw [hs]
      simp only [hbs, if_true]
      unfold fallbackFetch
      rw [if_pos hb]
  · intro env h200 hch
    unfold fetchFullDescription
    rw [h200]
    simp only [show isBlockedStatus 200 = false by decide, Bool.false_eq_true, if_false,
      ne_eq, not_true_eq_false, ite_false]
    unfold parseDetailDoc
    rw [if_pos hch]
  · intro env hn h200 hch
    unfold fetchFullDescription
    rw [hn]
    unfold fallbackFetch
    rw [h200]
    simp only [show isBlockedStatus 200 = false by decide, Bool.false_eq_true, if_false,
      ne_eq, not_true_eq_false, ite_false]
    unfold parseDetailDoc
    rw [if_pos hch]
  · intro fetch job hu hb
    unfold enrichOne
    rw [if_neg hu, hb]
  · exact enrichJobs_eq_map

/-- Witness for C4 (amended): a consistently 403-blocked fetch, and a
blocked record passing through enrichment unchanged. -/
theorem detail_fetch_classification_amended_witness :
    fetchFullDescription { fastStatus := some 403, fallbackStatus := 503, doc := {} } =
      FetchResult.blocked ∧
    enrichOne (fun _ => FetchResult.blocked)
        { url := "https://www.naukri.com/job-listings-w", title := "W" } =
      { url := "https://www.naukri.com/job-listings-w", title := "W" } := by
  constructor
  · exact detail_fetch_classification_amended.2.1 _ (Or.inr ⟨403, rfl, by decide⟩) (by decide)
  · exact detail_fetch_classification_amended.2.2.2.2.1 _ _ (by decide) rfl

/-- C7 counterexample: the detail-page experience probe replaces a non-empty
listing-derived experience value, so the secondary fields are not used only
to fill fields the listing extractor left empty. -/
theorem enrich_secondary_override_cex :
    (enrichOne
        (fun _ =>
          FetchResult.ok
            { descriptionHtml := "<p>full desc</p>",
              descriptionText := "full desc", experience := "2-4 Yrs" })
        { title := "T", experience := "3-5 years",
          url := "https://www.naukri.com/job-listings-x" }).experience = "2-4 Yrs" ∧
    ("3-5 years" : String) ≠ "" ∧ ("2-4 Yrs" : String) ≠ "3-5 years" := by
  refine ⟨by decide, by decide, by decide⟩

/-- C7 (amended): the merge is field-by-field `enriched || listing` — the
enriched value wins whenever non-empty (also over non-empty listing values),
an empty enriched value keeps the listing value, and a populated listing
field is never blanked; `url` and `scrapedAt` are untouched. -/
theorem enrich_merge_amended (job : JobRecord) (d : DetailPayload) :
    ((mergeEnriched job d).url = job.url ∧ (mergeEnriched job d).scrapedAt = job.scrapedAt) ∧
    ((mergeEnriched job d).title = jsOr d.title job.title ∧
     (mergeEnriched job d).company = jsOr d.company job.company ∧
     (mergeEnriched job d).location = jsOr d.location job.location ∧
     (mergeEnriched job d).postedDate = jsOr d.postedDate job.postedDate ∧
     (mergeEnriched job d).descriptionHtml = jsOr d.descriptionHtml job.descriptionHtml ∧
     (mergeEnriched job d).descriptionText = jsOr d.descriptionText job.descriptionText ∧
     (mergeEnriched job d).experience = jsOr d.experience job.experience ∧
     (mergeEnriched job d).salary = jsOr d.salary job.salary ∧
     (mergeEnriched job d).jobType = jsOr d.jobType job.jobType ∧
     (mergeEnriched job d).tags = jsOr d.tags job.tags ∧
     (mergeEnriched job d).jobId = jsOr d.jobId job.jobId) ∧
    (∀ a b : String, a = "" → jsOr a b = b) ∧
    (∀ a b : String, b ≠ "" → jsOr a b ≠ "") := by
  refine ⟨⟨rfl, rfl⟩, ⟨rfl, rfl, rfl, rfl, rfl, rfl, rfl, rfl, rfl, rfl, rfl⟩, ?_, ?_⟩
  · intro a b h
    simp [jsOr, h]
  · intro a b h
    unfold jsOr
    split
    · exact h
    · next hne => exact hne

/-- Witness for C7 (amended) at a concrete merge. -/
theorem enrich_merge_amended_witness :
    (mergeEnriched { url := "u", experience := "3-5 years" } { experience := "2-4 Yrs" }).url =
      ({ url := "u", experience := "3-5 years" } : JobRecord).url ∧
    jsOr "" "snippet" = "snippet" ∧
    jsOr "full" "snippet" ≠ "" := by
  refine ⟨(enrich_merge_amended _ _).1.1, ?_, ?_⟩
  · exact (enrich_merge_amended { url := "u" } {}).2.2.1 "" "snippet" rfl
  · exact (enrich_merge_amended { url := "u" } {}).2.2.2 "full" "snippet" (by decide)

/-! ## Experience normalization theorems -/

/-- C8 counterexample: the Structured-Data Extractor's posting mapper
derives experience solely from the description, so a posting whose
`experienceRequirements.monthsOfExperience` is 30 (and has no description)
maps to "Not specified", not "2.5 years"; the months→years conversion lives
in `normalizeExperienceFromJsonLd`, used by the detail-page JSON-LD parser. -/
theorem experience_months_ignored_cex :
    (parseJobPosting (Json.obj [("@type", Json.str "JobPosting"),
        ("experienceRequirements", Json.obj [("monthsOfExperience", Json.num 30)])])).experience =
      "Not specified" ∧
    normalizeExperienceFromJsonLd (some (Json.obj [("monthsOfExperience", Json.num 30)])) =
      "2.5 years" ∧
    ("Not specified" : String) ≠ "2.5 years" := by
  refine ⟨by decide, by decide, by decide⟩

/-- C8 (amended): for every positive integer months figure `m`,
`normalizeExperienceFromJsonLd` renders exactly the spec's
`round(m/12 * 10)/10` as "{years} years" (2.5 for `m = 30`); and the
listing-side `parseJobPosting` derives experience exclusively by
pattern-matching the description, never consulting the months figure. -/
theorem experience_months_amended :
    (∀ m : Int, 0 < m →
      normalizeExperienceFromJsonLd (some (Json.obj [("monthsOfExperience", Json.num m)])) =
        specYearsString m.toNat) ∧
    specYearsString 30 = "2.5 years" ∧
    (∀ jobData : Json, (parseJobPosting jobData).experience =
      extractExperience (descriptionStringOf jobData)) := by
  refine ⟨?_, by decide, fun _ => rfl⟩
  intro m hm
  have hdiv : (20 * m.toNat + 12) / 24 = (10 * m.toNat + 6) / 12 := by omega
  simp only [normalizeExperienceFromJsonLd, Json.isTruthyB, Bool.not_true, Json.getField,
    List.lookup, jsCoalesce, jsToNumber]
  norm_num
  rw [if_neg (by omega), hdiv]
  rfl

/-- Witness for C8 (amended) at `m = 30`. -/
theorem experience_months_amended_witness :
    normalizeExperienceFromJsonLd (some (Json.obj [("monthsOfExperience", Json.num 30)])) =
      specYearsString (Int.toNat 30) := by
  exact experience_months_amended.1 30 (by decide)

/-! ## Markup extractor invariants -/

/-- Every record the per-card extractor retains carries a non-empty title
(the `'Unknown Title'` default fires whenever the cascades found none). -/
theorem mkCardRecord_title (c : CardView) (t u : String) :
    (mkCardRecord c t u).title ≠ "" := by
  simp only [mkCardRecord, jsOr]
  split
  · decide
  · assumption

theorem extractJobFromElement_title (c : CardView) (fb : CardFallback) (r : JobRecord)
    (h : extractJobFromElement c fb = some r) : r.title ≠ "" := by
  simp only [extractJobFromElement] at h
  split at h
  · injection h with h
    exact h ▸ mkCardRecord_title c _ _
  · exact absurd h (by simp)

/-- Lemma: `addJob` preserves the invariant: it only appends extraction results,
and only when their URL is non-empty. -/
theorem addJob_good (st : List JobRecord × List String) (oj : Option JobRecord)
    (h : goodState st) (ht : ∀ r, oj = some r → r.title ≠ "") :
    goodState (addJob st oj) := by
  cases oj with
  | none => exact h
  | some job =>
    by_cases hc : job.url ≠ "" ∧ job.url ∉ st.2
    · rw [show addJob st (some job) = (st.1 ++ [job], job.url :: st.2) from by
        simp [addJob, hc]]
      intro j hj
      replace hj : j ∈ st.1 ++ [job] := hj
      rcases List.mem_append.mp hj with hj | hj
      · exact h j hj
      · simp only [List.mem_singleton] at hj
        subst hj
        exact ⟨ht j rfl, hc.1⟩
    · rw [show addJob st (some job) = st from by simp [addJob, hc]]
      exact h

/-- Primary-card processing preserves the invariant. -/
theorem processCards_good (cards : List CardView) :
    ∀ st, goodState st → goodState (processCards st cards) := by
  induction cards with
  | nil => intro st h; exact h
  | cons c rest ih =>
    intro st h
    exact ih _ (addJob_good st _ h (fun r hr => extractJobFromElement_title c {} r hr))

/-- Container processing preserves the invariant. -/
theorem processContainer_good (cv : ContainerView) (st : List JobRecord × List String)
    (h : goodState st) : goodState (processContainer st cv) := by
  unfold processContainer
  split
  · exact addJob_good st _ h (fun r hr => extractJobFromElement_title cv.self {} r hr)
  · exact processCards_good cv.tuples st h

/-- Folding containers preserves the invariant. -/
theorem foldContainers_good (g : List ContainerView) :
    ∀ st, goodState st → goodState (g.foldl processContainer st) := by
  induction g with
  | nil => intro st h; exact h
  | cons cv rest ih => intro st h; exact ih _ (processContainer_good cv st h)

/-- The fallback-group loop preserves the invariant. -/
theorem processGroups_good (groups : List (List ContainerView)) :
    ∀ st, goodState st → goodState (processGroups st groups) := by
  induction groups with
  | nil => intro st h; exact h
  | cons g rest ih =>
    intro st h
    unfold processGroups
    split
    · exact ih st h
    · split
      · exact ih _ (foldContainers_good g st h)
      · exact foldContainers_good g st h

/-- The link-climbing loop preserves the invariant. -/
theorem processLinks_good (links : List LinkView) :
    ∀ st, goodState st → goodState (processLinks st links) := by
  induction links with
  | nil => intro st h; exact h
  | cons lk rest ih =>
    intro st h
    unfold processLinks
    split
    · exact ih st h
    · split
      · exact ih st h
      · exact ih _ (addJob_good st _ h
          (fun r hr => extractJobFromElement_title lk.container _ r hr))

/-- Every record the markup extractor emits has a non-empty title and URL. -/
theorem extractHTML_good (p : ListingPage) :
    ∀ j ∈ extractJobDataViaHTML p, j.title ≠ "" ∧ j.url ≠ "" := by
  have h1 : goodState (htmlStage1 p) := by
    unfold htmlStage1
    split
    · exact processGroups_good p.fallbackGroups ([], []) (by intro j hj; simp at hj)
    · exact processCards_good p.primaryCards ([], []) (by intro j hj; simp at hj)
  unfold extractJobDataViaHTML
  split
  · exact processLinks_good p.jobLinks _ h1
  · exact h1

/-- C5 counterexample: the Structured-Data Extractor pushes
`parseJobPosting` output without any title/URL retention check, so a bare
`{"@type": "JobPosting"}` block yields a record whose title and URL are
both empty. -/
theorem extractor_empty_title_url_cex :
    (extractJobsViaJsonLD [LdBlock.parsed (Json.obj [("@type", Json.str "JobPosting")])]).map
      (fun r => (r.title, r.url)) = [("", "")] := by
  decide

/-- C5 (amended): the retention invariant holds for the Markup Extractor —
every emitted record has a non-empty title (and even a non-empty URL), and
every retained card record has a non-empty title or URL — but the
Structured-Data Extractor enforces no such check (see the counterexample). -/
theorem record_retention_amended (p : ListingPage) :
    (∀ j ∈ extractJobDataViaHTML p, j.title ≠ "" ∧ j.url ≠ "") ∧
    (∀ (c : CardView) (fb : CardFallback) (r : JobRecord),
      extractJobFromElement c fb = some r → r.title ≠ "" ∨ r.url ≠ "") := by
  refine ⟨extractHTML_good p, ?_⟩
  intro c fb r h
  exact Or.inl (extractJobFromElement_title c fb r h)

/-- Witness for C5 (amended) on a concrete one-card page. -/
theorem record_retention_amended_witness :
    ({ title := "Dev", salary := "Not specified", experience := "Not specified",
       jobType := "Not specified",
       url := "https://www.naukri.com/job-listings-x" } : JobRecord).title ≠ "" ∧
    ({ title := "Dev", salary := "Not specified", experience := "Not specified",
       jobType := "Not specified",
       url := "https://www.naukri.com/job-listings-x" } : JobRecord).url ≠ "" := by
  exact (record_retention_amended
    { primaryCards := [{ titleTexts := ["  Dev  "], urlHrefs := ["/job-listings-x"] }] }).1
    _ (by decide)

/-- C10: every record the Markup extractor returns has a non-empty URL —
all three extraction paths append through the same URL-guarded `addJob` —
while per-card field extraction alone would retain a title-only card: on a
concrete card with a title and no resolvable URL, `extractJobFromElement`
returns a record, yet the page-level extractor emits nothing. -/
theorem markup_url_invariant :
    (∀ p : ListingPage, ∀ j ∈ extractJobDataViaHTML p, j.url ≠ "") ∧
    (∃ r : JobRecord, extractJobFromElement { titleTexts := ["Data Engineer"] } {} = some r ∧
      r.url = "" ∧ r.title = "Data Engineer") ∧
    extractJobDataViaHTML { primaryCards := [{ titleTexts := ["Data Engineer"] }] } = [] := by
  refine ⟨?_, ?_, ?_⟩
  · intro p j hj
    exact (extractHTML_good p j hj).2
  · exact ⟨_, rfl, rfl, rfl⟩
  · rfl

/-- Witness for C10 on a concrete one-card page. -/
theorem markup_url_invariant_witness :
    ({ title := "Lead", salary := "Not specified", experience := "Not specified",
       jobType := "Not specified",
       url := "https://www.naukri.com/job-listings-y" } : JobRecord).url ≠ "" := by
  exact markup_url_invariant.1
    { primaryCards := [{ titleTexts := ["Lead"], urlHrefs := ["/job-listings-y"] }] }
    _ (by decide)

/-! ## Per-page first-occurrence deduplication (C9) -/

/-- The card fold is exactly first-occurrence deduplication over the stream
of per-card extraction results with URLs, in both its components. -/
theorem processCards_eq (cards : List CardView) :
    ∀ st : List JobRecord × List String,
      processCards st cards =
        (st.1 ++ dedupFirstByUrl st.2 (cardCandidates cards),
         dedupSeen st.2 (cardCandidates cards)) := by
  induction cards with
  | nil => intro st; simp [processCards, cardCandidates, dedupFirstByUrl, dedupSeen]
  | cons c rest ih =>
    intro st
    have hstep : processCards st (c :: rest) =
        processCards (addJob st (extractJobFromElement c {})) rest := rfl
    cases he : extractJobFromElement c {} with
    | none =>
      have hc : cardCandidates (c :: rest) = cardCandidates rest := by
        simp [cardCandidates, List.filterMap_cons, he]
      rw [hstep, he, hc]
      exact ih st
    | some j =>
      by_cases hu : j.url = ""
      · have ha : addJob st (some j) = st := by simp [addJob, hu]
        have hc : cardCandidates (c :: rest) = cardCandidates rest := by
          simp [cardCandidates, List.filterMap_cons, he, List.filter_cons, hu]
        rw [hstep, he, ha, hc]
        exact ih st
      · have hc : cardCandidates (c :: rest) = j :: cardCandidates rest := by
          simp [cardCandidates, List.filterMap_cons, he, List.filter_cons, hu]
        by_cases hmem : j.url ∈ st.2
        · have ha : addJob st (some j) = st := by simp [addJob, hmem]
          rw [hstep, he, ha, hc]
          rw [show dedupFirstByUrl st.2 (j :: cardCandidates rest) =
              dedupFirstByUrl st.2 (cardCandidates rest) from by
            simp [dedupFirstByUrl, hmem]]
          rw [show dedupSeen st.2 (j :: cardCandidates rest) =
              dedupSeen st.2 (cardCandidates rest) from by
            simp [dedupSeen, hmem]]
          exact ih st
        · have ha : addJob st (some j) = (st.1 ++ [j], j.url :: st.2) := by
            simp [addJob, hu, hmem]
          rw [hstep, he, ha]
          rw [ih (st.1 ++ [j], j.url :: st.2), hc]
          rw [show dedupFirstByUrl st.2 (j :: cardCandidates rest) =
              j :: dedupFirstByUrl (j.url :: st.2) (cardCandidates rest) from by
            simp [dedupFirstByUrl, hmem]]
          rw [show dedupSeen st.2 (j :: cardCandidates rest) =
              dedupSeen (j.url :: st.2) (cardCandidates rest) from by
            simp [dedupSeen, hmem]]
          simp

/-- The deduplicated stream is a sublist of the candidate stream (order is
preserved). -/
theorem dedupFirst_sublist (l : List JobRecord) :
    ∀ s, List.Sublist (dedupFirstByUrl s l) l := by
  induction l with
  | nil => intro s; simp [dedupFirstByUrl]
  | cons j rest ih =>
    intro s
    by_cases h : j.url ∈ s
    · simp only [dedupFirstByUrl, if_pos h]
      exact (ih s).cons j
    · simp only [dedupFirstByUrl, if_neg h]
      exact (ih (j.url :: s)).cons₂ j

/-- A kept record's URL was not in the incoming seen-set. -/
theorem dedupFirst_fresh (l : List JobRecord) :
    ∀ s j, j ∈ dedupFirstByUrl s l → j.url ∉ s := by
  induction l with
  | nil => intro s j h; simp [dedupFirstByUrl] at h
  | cons k rest ih =>
    intro s j h
    by_cases hk : k.url ∈ s
    · simp only [dedupFirstByUrl, if_pos hk] at h
      exact ih s j h
    · simp only [dedupFirstByUrl, if_neg hk, List.mem_cons] at h
      rcases h with rfl | h'
      · exact hk
      · intro hmem
        exact ih _ j h' (List.mem_cons_of_mem _ hmem)

/-- The kept URLs are pairwise distinct. -/
theorem dedupFirst_nodup (l : List JobRecord) :
    ∀ s, ((dedupFirstByUrl s l).map (fun j => j.url)).Nodup := by
  induction l with
  | nil => intro s; simp [dedupFirstByUrl]
  | cons k rest ih =>
    intro s
    by_cases hk : k.url ∈ s
    · simp only [dedupFirstByUrl, if_pos hk]
      exact ih s
    · simp only [dedupFirstByUrl, if_neg hk, List.map_cons, List.nodup_cons]
      refine ⟨?_, ih _⟩
      intro hmem
      rcases List.mem_map.mp hmem with ⟨j, hj, hju⟩
      exact dedupFirst_fresh rest (k.url :: s) j hj (hju ▸ List.mem_cons_self _ _)

/-- No candidate URL is lost: it was either already seen or is represented
in the output. -/
theorem dedupFirst_covers (l : List JobRecord) :
    ∀ s c, c ∈ l → c.url ∈ s ∨ c.url ∈ (dedupFirstByUrl s l).map (fun j => j.url) := by
  induction l with
  | nil => intro s c h; simp at h
  | cons k rest ih =>
    intro s c h
    rcases List.mem_cons.mp h with rfl | h'
    · by_cases hk : c.url ∈ s
      · exact Or.inl hk
      · simp only [dedupFirstByUrl, if_neg hk, List.map_cons]
        exact Or.inr (List.mem_cons_self _ _)
    · by_cases hk : k.url ∈ s
      · simp only [dedupFirstByUrl, if_pos hk]
        exact ih s c h'
      · simp only [dedupFirstByUrl, if_neg hk, List.map_cons]
        rcases ih (k.url :: s) c h' with hin | hin
        · rcases List.mem_cons.mp hin with heq | hin2
          · exact Or.inr (heq ▸ List.mem_cons_self _ _)
          · exact Or.inl hin2
        · exact Or.inr (List.mem_cons_of_mem _ hin)

/-- First occurrence wins: every kept record is the first candidate bearing
its URL. -/
theorem dedupFirst_first (l : List JobRecord) :
    ∀ s j, j ∈ dedupFirstByUrl s l → l.find? (fun c => c.url == j.url) = some j := by
  induction l with
  | nil => intro s j h; simp [dedupFirstByUrl] at h
  | cons k rest ih =>
    intro s j h
    by_cases hk : k.url ∈ s
    · simp only [dedupFirstByUrl, if_pos hk] at h
      have hfresh := dedupFirst_fresh rest s j h
      have hne : ¬((fun c : JobRecord => c.url == j.url) k = true) := by
        simp only [beq_iff_eq]
        intro heq
        exact hfresh (heq ▸ hk)
      have hstep : List.find? (fun c : JobRecord => c.url == j.url) (k :: rest) =
          List.find? (fun c : JobRecord => c.url == j.url) rest :=
        List.find?_cons_of_neg rest hne
      rw [hstep]
      exact ih s j h
    · simp only [dedupFirstByUrl, if_neg hk, List.mem_cons] at h
      rcases h with rfl | h'
      · exact List.find?_cons_of_pos rest (beq_self_eq_true _)
      · have hfresh := dedupFirst_fresh rest (k.url :: s) j h'
        have hne : ¬((fun c : JobRecord => c.url == j.url) k = true) := by
          simp only [beq_iff_eq]
          intro heq
          exact hfresh (heq ▸ List.mem_cons_self _ _)
        have hstep : List.find? (fun c : JobRecord => c.url == j.url) (k :: rest) =
            List.find? (fun c : JobRecord => c.url == j.url) rest :=
          List.find?_cons_of_neg rest hne
        rw [hstep]
        exact ih _ j h'

/-- With an empty seen-set, a non-empty candidate stream keeps its head. -/
theorem dedupFirst_nil_ne (l : List JobRecord) (h : l ≠ []) :
    dedupFirstByUrl [] l ≠ [] := by
  cases l with
  | nil => exact absurd rfl h
  | cons j rest => simp [dedupFirstByUrl]

/-- With an empty seen-set, deduplication erases only duplicated lists. -/
theorem dedupFirst_nil_eq_nil (l : List JobRecord) (h : dedupFirstByUrl [] l = []) :
    l = [] := by
  cases l with
  | nil => rfl
  | cons j rest => simp [dedupFirstByUrl] at h

/-- One fallback container behaves as the card fold over its contributed
cards. -/
theorem processContainer_cards (st : List JobRecord × List String) (cv : ContainerView) :
    processContainer st cv = processCards st (containerCards cv) := by
  unfold processContainer containerCards
  by_cases ht : cv.tuples.isEmpty = true
  · rw [if_pos ht, if_pos ht]
    rfl
  · rw [if_neg ht, if_neg ht]

/-- A container group folds as the card fold over its flattened cards. -/
theorem foldContainers_eq (g : List ContainerView) :
    ∀ st, g.foldl processContainer st = processCards st (g.flatMap containerCards) := by
  induction g with
  | nil => intro st; rfl
  | cons cv rest ih =>
    intro st
    have h1 : List.foldl processContainer st (cv :: rest) =
        List.foldl processContainer (processContainer st cv) rest := rfl
    rw [h1, ih, processContainer_cards]
    unfold processCards
    rw [List.flatMap_cons, List.foldl_append]

/-- The fallback-group loop from the empty state is exactly first-occurrence
deduplication of the first productive group's card stream. -/
theorem processGroups_eq (groups : List (List ContainerView)) :
    processGroups ([], []) groups =
      (dedupFirstByUrl [] (groupsCandidates groups),
       dedupSeen [] (groupsCandidates groups)) := by
  induction groups with
  | nil => rfl
  | cons g rest ih =>
    by_cases hg : g.isEmpty = true
    · have h1 : processGroups ([], []) (g :: rest) = processGroups ([], []) rest := by
        simp only [processGroups]
        rw [if_pos hg]
      have h2 : groupsCandidates (g :: rest) = groupsCandidates rest := by
        simp only [groupsCandidates]
        rw [if_pos hg]
      rw [h1, h2]
      exact ih
    · have hfold : g.foldl processContainer (([] : List JobRecord), ([] : List String)) =
          (dedupFirstByUrl [] (cardCandidates (g.flatMap containerCards)),
           dedupSeen [] (cardCandidates (g.flatMap containerCards))) := by
        rw [foldContainers_eq g ([], []), processCards_eq]
        simp
      by_cases hc : cardCandidates (g.flatMap containerCards) = []
      · have hfold0 : g.foldl processContainer (([] : List JobRecord), ([] : List String)) =
            (([] : List JobRecord), ([] : List String)) := by
          rw [hfold, hc]
          rfl
        have h1 : processGroups ([], []) (g :: rest) = processGroups ([], []) rest := by
          simp only [processGroups]
          rw [if_neg hg, hfold0]
          simp
        have h2 : groupsCandidates (g :: rest) = groupsCandidates rest := by
          simp only [groupsCandidates]
          rw [if_neg hg, if_pos hc]
        rw [h1, h2]
        exact ih
      · have hne : dedupFirstByUrl [] (cardCandidates (g.flatMap containerCards)) ≠ [] := by
          intro h0
          exact hc (dedupFirst_nil_eq_nil _ h0)
        have h1 : processGroups ([], []) (g :: rest) =
            (dedupFirstByUrl [] (cardCandidates (g.flatMap containerCards)),
             dedupSeen [] (cardCandidates (g.flatMap containerCards))) := by
          simp only [processGroups]
          rw [if_neg hg, hfold]
          rw [if_neg (by simpa using hne)]
        have h2 : groupsCandidates (g :: rest) = cardCandidates (g.flatMap containerCards) := by
          simp only [groupsCandidates]
          rw [if_neg hg, if_neg hc]
        rw [h1, h2]

/-- Stage 1 on a page with primary cards. -/
theorem htmlStage1_primary (p : ListingPage) (h : p.primaryCards ≠ []) :
    htmlStage1 p =
      (dedupFirstByUrl [] (cardCandidates p.primaryCards),
       dedupSeen [] (cardCandidates p.primaryCards)) := by
  unfold htmlStage1
  rw [if_neg (by simpa using h), processCards_eq]
  simp

/-- Stage 1 on a page without primary cards. -/
theorem htmlStage1_fallback (p : ListingPage) (h : p.primaryCards = []) :
    htmlStage1 p =
      (dedupFirstByUrl [] (groupsCandidates p.fallbackGroups),
       dedupSeen [] (groupsCandidates p.fallbackGroups)) := by
  unfold htmlStage1
  rw [if_pos (by simpa using h)]
  exact processGroups_eq p.fallbackGroups

/-- When stage 1 emits no record, its seen-set is also empty: the
link-climbing phase starts from the empty state. -/
theorem htmlStage1_empty (p : ListingPage) (h : (htmlStage1 p).1 = []) :
    htmlStage1 p = ([], []) := by
  by_cases hp : p.primaryCards = []
  · have hs := htmlStage1_fallback p hp
    have h2 : dedupFirstByUrl [] (groupsCandidates p.fallbackGroups) = [] := by
      rw [hs] at h
      exact h
    have h3 := dedupFirst_nil_eq_nil _ h2
    rw [hs, h3]
    rfl
  · have hs := htmlStage1_primary p hp
    have h2 : dedupFirstByUrl [] (cardCandidates p.primaryCards) = [] := by
      rw [hs] at h
      exact h
    have h3 := dedupFirst_nil_eq_nil _ h2
    rw [hs, h3]
    rfl

/-- The per-anchor record stream only grows when an anchor is prepended. -/
theorem linkRecords_cons_sub (lk : LinkView) (rest : List LinkView) :
    List.Sublist (linkRecords rest) (linkRecords (lk :: rest)) := by
  simp only [linkRecords]
  by_cases hh : lk.href = ""
  · rw [if_pos hh]
  · rw [if_neg hh]
    cases he : extractJobFromElement lk.container
        { title := trimStr lk.text, url := absolutize lk.href } with
    | none => exact List.Sublist.refl _
    | some j =>
      show List.Sublist (linkRecords rest)
        (if j.url = "" then linkRecords rest else j :: linkRecords rest)
      by_cases hu : j.url = ""
      · rw [if_pos hu]
      · rw [if_neg hu]
        exact (List.Sublist.refl _).cons j

/-- The link-climbing loop only appends records drawn, in order, from the
per-anchor record stream, each produced by some anchor's climbed card. -/
theorem processLinks_shape (links : List LinkView) :
    ∀ st : List JobRecord × List String,
      ∃ tail : List JobRecord,
        (processLinks st links).1 = st.1 ++ tail ∧
        List.Sublist tail (linkRecords links) ∧
        (∀ j ∈ tail, ∃ lk ∈ links, lk.href ≠ "" ∧
          extractJobFromElement lk.container
            { title := trimStr lk.text, url := absolutize lk.href } = some j) := by
  induction links with
  | nil =>
    intro st
    exact ⟨[], by simp [processLinks], List.nil_sublist _, by simp⟩
  | cons lk rest ih =>
    intro st
    by_cases hh : lk.href = ""
    · obtain ⟨tail, h1, h2, h3⟩ := ih st
      refine ⟨tail, ?_, h2.trans (linkRecords_cons_sub lk rest), ?_⟩
      · rw [show processLinks st (lk :: rest) = processLinks st rest from by
          simp [processLinks, hh]]
        exact h1
      · intro j hj
        obtain ⟨lk2, hm, hp, hee⟩ := h3 j hj
        exact ⟨lk2, List.mem_cons_of_mem _ hm, hp, hee⟩
    · by_cases hmem : absolutize lk.href ∈ st.2
      · obtain ⟨tail, h1, h2, h3⟩ := ih st
        refine ⟨tail, ?_, h2.trans (linkRecords_cons_sub lk rest), ?_⟩
        · rw [show processLinks st (lk :: rest) = processLinks st rest from by
            simp [processLinks, hh, hmem]]
          exact h1
        · intro j hj
          obtain ⟨lk2, hm, hp, hee⟩ := h3 j hj
          exact ⟨lk2, List.mem_cons_of_mem _ hm, hp, hee⟩
      · cases he : extractJobFromElement lk.container
            { title := trimStr lk.text, url := absolutize lk.href } with
        | none =>
          obtain ⟨tail, h1, h2, h3⟩ := ih st
          refine ⟨tail, ?_, h2.trans (linkRecords_cons_sub lk rest), ?_⟩
          · rw [show processLinks st (lk :: rest) = processLinks st rest from by
              simp [processLinks, hh, hmem, he, addJob]]
            exact h1
          · intro j hj
            obtain ⟨lk2, hm, hp, hee⟩ := h3 j hj
            exact ⟨lk2, List.mem_cons_of_mem _ hm, hp, hee⟩
        | some j =>
          by_cases hguard : j.url ≠ "" ∧ j.url ∉ st.2
          · obtain ⟨tail, h1, h2, h3⟩ := ih (st.1 ++ [j], j.url :: st.2)
            refine ⟨j :: tail, ?_, ?_, ?_⟩
            · rw [show processLinks st (lk :: rest) =
                  processLinks (st.1 ++ [j], j.url :: st.2) rest from by
                simp [processLinks, hh, hmem, he, addJob, hguard.1, hguard.2]]
              rw [h1]
              simp
            · have hlr : linkRecords (lk :: rest) = j :: linkRecords rest := by
                simp only [linkRecords, he]
                rw [if_neg hh, if_neg hguard.1]
              rw [hlr]
              exact h2.cons₂ j
            · intro x hx
              rcases List.mem_cons.mp hx with rfl | hx2
              · exact ⟨lk, List.mem_cons_self _ _, hh, he⟩
              · obtain ⟨lk2, hm, hp, hee⟩ := h3 x hx2
                exact ⟨lk2, List.mem_cons_of_mem _ hm, hp, hee⟩
          · obtain ⟨tail, h1, h2, h3⟩ := ih st
            refine ⟨tail, ?_, h2.trans (linkRecords_cons_sub lk rest), ?_⟩
            · rw [show processLinks st (lk :: rest) = processLinks st rest from by
                simp [processLinks, hh, hmem, he, addJob, hguard]]
              exact h1
            · intro j2 hj
              obtain ⟨lk2, hm, hp, hee⟩ := h3 j2 hj
              exact ⟨lk2, List.mem_cons_of_mem _ hm, hp, hee⟩

/-- Lemma: `addJob` preserves the URL invariant: it only appends a record
whose URL is absent from the seen-set, recording it there at once. -/
theorem addJob_urlsOk (st : List JobRecord × List String) (oj : Option JobRecord)
    (h : urlsOkState st) : urlsOkState (addJob st oj) := by
  cases oj with
  | none => exact h
  | some job =>
    by_cases hc : job.url ≠ "" ∧ job.url ∉ st.2
    · rw [show addJob st (some job) = (st.1 ++ [job], job.url :: st.2) from by
        simp [addJob, hc]]
      refine ⟨?_, ?_⟩
      · show ((st.1 ++ [job]).map (fun j => j.url)).Nodup
        rw [List.map_append, List.nodup_append]
        refine ⟨h.1, by simp, ?_⟩
        intro x hx hxx
        simp only [List.map_cons, List.map_nil, List.mem_singleton] at hxx
        subst hxx
        rcases List.mem_map.mp hx with ⟨j2, hj2, hju⟩
        exact hc.2 (hju ▸ h.2 j2 hj2)
      · intro j hj
        replace hj : j ∈ st.1 ++ [job] := hj
        rcases List.mem_append.mp hj with hj | hj
        · exact List.mem_cons_of_mem _ (h.2 j hj)
        · simp only [List.mem_singleton] at hj
          subst hj
          exact List.mem_cons_self _ _
    · rw [show addJob st (some job) = st from by simp [addJob, hc]]
      exact h

/-- Primary-card processing preserves the URL invariant. -/
theorem processCards_urlsOk (cards : List CardView) :
    ∀ st, urlsOkState st → urlsOkState (processCards st cards) := by
  induction cards with
  | nil => intro st h; exact h
  | cons c rest ih =>
    intro st h
    exact ih _ (addJob_urlsOk st _ h)

/-- Container processing preserves the URL invariant. -/
theorem processContainer_urlsOk (cv : ContainerView) (st : List JobRecord × List String)
    (h : urlsOkState st) : urlsOkState (processContainer st cv) := by
  unfold processContainer
  split
  · exact addJob_urlsOk st _ h
  · exact processCards_urlsOk cv.tuples st h

/-- Folding containers preserves the URL invariant. -/
theorem foldContainers_urlsOk (g : List ContainerView) :
    ∀ st, urlsOkState st → urlsOkState (g.foldl processContainer st) := by
  induction g with
  | nil => intro st h; exact h
  | cons cv rest ih => intro st h; exact ih _ (processContainer_urlsOk cv st h)

/-- The fallback-group loop preserves the URL invariant. -/
theorem processGroups_urlsOk (groups : List (List ContainerView)) :
    ∀ st, urlsOkState st → urlsOkState (processGroups st groups) := by
  induction groups with
  | nil => intro st h; exact h
  | cons g rest ih =>
    intro st h
    unfold processGroups
    split
    · exact ih st h
    · split
      · exact ih _ (foldContainers_urlsOk g st h)
      · exact foldContainers_urlsOk g st h

/-- The link-climbing loop preserves the URL invariant. -/
theorem processLinks_urlsOk (links : List LinkView) :
    ∀ st, urlsOkState st → urlsOkState (processLinks st links) := by
  induction links with
  | nil => intro st h; exact h
  | cons lk rest ih =>
    intro st h
    unfold processLinks
    split
    · exact ih st h
    · split
      · exact ih st h
      · exact ih _ (addJob_urlsOk st _ h)

/-- Every page's output — whichever phase produced it — carries pairwise
distinct URLs. -/
theorem extractHTML_nodup (p : ListingPage) :
    ((extractJobDataViaHTML p).map (fun j => j.url)).Nodup := by
  have h0 : urlsOkState (([] : List JobRecord), ([] : List String)) := by
    refine ⟨?_, ?_⟩
    · simp
    · intro j hj
      simp at hj
  have h1 : urlsOkState (htmlStage1 p) := by
    unfold htmlStage1
    split
    · exact processGroups_urlsOk p.fallbackGroups ([], []) h0
    · exact processCards_urlsOk p.primaryCards ([], []) h0
  unfold extractJobDataViaHTML
  split
  · exact (processLinks_urlsOk p.jobLinks _ h1).1
  · exact h1.1

/-- C9: per-page first-occurrence URL deduplication holds on every listing
page.  Whatever phase produced the records, the output's URLs are pairwise
distinct.  On the two card-list paths — the primary selectors, and the
fallback container selectors, where the first productive group's cards
decide — the output is exactly first-occurrence deduplication of the
per-card extraction stream, and `dedupFirstByUrl` keeps each URL's first
record, preserves order (a sublist) and loses no candidate URL.  When both
card stages yield nothing, the link-climbing phase runs from an empty
state: its output preserves anchor order (a sublist of the per-anchor
record stream) and every record stems from some anchor's climbed card.
These cases cover every page, and no cross-page seen-set exists:
`extractJobDataViaHTML` takes none. -/
theorem markup_dedup_first_occurrence (p : ListingPage) :
    ((extractJobDataViaHTML p).map (fun j => j.url)).Nodup ∧
    (p.primaryCards ≠ [] → cardCandidates p.primaryCards ≠ [] →
      extractJobDataViaHTML p = dedupFirstByUrl [] (cardCandidates p.primaryCards)) ∧
    (p.primaryCards = [] → groupsCandidates p.fallbackGroups ≠ [] →
      extractJobDataViaHTML p = dedupFirstByUrl [] (groupsCandidates p.fallbackGroups)) ∧
    (∀ l : List JobRecord,
      List.Sublist (dedupFirstByUrl [] l) l ∧
      ((dedupFirstByUrl [] l).map (fun j => j.url)).Nodup ∧
      (∀ c ∈ l, c.url ∈ (dedupFirstByUrl [] l).map (fun j => j.url)) ∧
      (∀ j ∈ dedupFirstByUrl [] l, l.find? (fun c => c.url == j.url) = some j)) ∧
    ((htmlStage1 p).1 = [] →
      List.Sublist (extractJobDataViaHTML p) (linkRecords p.jobLinks) ∧
      (∀ j ∈ extractJobDataViaHTML p, ∃ lk ∈ p.jobLinks, lk.href ≠ "" ∧
        extractJobFromElement lk.container
          { title := trimStr lk.text, url := absolutize lk.href } = some j)) := by
  refine ⟨extractHTML_nodup p, ?_, ?_, ?_, ?_⟩
  · intro hp hcand
    have hs := htmlStage1_primary p hp
    have hne : (htmlStage1 p).1 ≠ [] := by
      rw [hs]
      exact dedupFirst_nil_ne _ hcand
    have h1 : (htmlStage1 p).1 = dedupFirstByUrl [] (cardCandidates p.primaryCards) := by
      rw [hs]
    unfold extractJobDataViaHTML
    rw [if_neg (by simpa using hne)]
    exact h1
  · intro hp hg
    have hs := htmlStage1_fallback p hp
    have hne : (htmlStage1 p).1 ≠ [] := by
      rw [hs]
      exact dedupFirst_nil_ne _ hg
    have h1 : (htmlStage1 p).1 = dedupFirstByUrl [] (groupsCandidates p.fallbackGroups) := by
      rw [hs]
    unfold extractJobDataViaHTML
    rw [if_neg (by simpa using hne)]
    exact h1
  · intro l
    refine ⟨dedupFirst_sublist l [], dedupFirst_nodup l [], ?_, dedupFirst_first l []⟩
    intro c hc
    rcases dedupFirst_covers l [] c hc with hin | hin
    · simp at hin
    · exact hin
  · intro h0
    have hpair := htmlStage1_empty p h0
    obtain ⟨tail, h1, h2, h3⟩ := processLinks_shape p.jobLinks ([], [])
    have hout : extractJobDataViaHTML p = tail := by
      unfold extractJobDataViaHTML
      rw [if_pos (by simp [h0]), hpair, h1]
      simp
    rw [hout]
    exact ⟨h2, h3⟩

/-- Witness for C9: a primary-card page whose three cards share a duplicate
URL, a fallback-container page whose tuple cards share one, and a pure
link-climbing page, each instantiating its clause of the theorem. -/
theorem markup_dedup_first_occurrence_witness :
    extractJobDataViaHTML
        { primaryCards := [
            { titleTexts := ["A"], urlHrefs := ["/job-listings-1"] },
            { titleTexts := ["B"], urlHrefs := ["/job-listings-1"] },
            { titleTexts := ["C"], urlHrefs := ["/job-listings-2"] }] } =
      dedupFirstByUrl [] (cardCandidates [
            { titleTexts := ["A"], urlHrefs := ["/job-listings-1"] },
            { titleTexts := ["B"], urlHrefs := ["/job-listings-1"] },
            { titleTexts := ["C"], urlHrefs := ["/job-listings-2"] }]) ∧
    extractJobDataViaHTML
        { fallbackGroups := [[{ tuples := [
            { titleTexts := ["D"], urlHrefs := ["/job-listings-3"] },
            { titleTexts := ["E"], urlHrefs := ["/job-listings-3"] }] }]] } =
      dedupFirstByUrl [] (groupsCandidates [[{ tuples := [
            { titleTexts := ["D"], urlHrefs := ["/job-listings-3"] },
            { titleTexts := ["E"], urlHrefs := ["/job-listings-3"] }] }]]) ∧
    List.Sublist
      (extractJobDataViaHTML
        { jobLinks := [
            { href := "/job-listings-4", text := "F" },
            { href := "/job-listings-4", text := "G" }] })
      (linkRecords [
            { href := "/job-listings-4", text := "F" },
            { href := "/job-listings-4", text := "G" }]) := by
  refine ⟨?_, ?_, ?_⟩
  · exact (markup_dedup_first_occurrence
      { primaryCards := [
          { titleTexts := ["A"], urlHrefs := ["/job-listings-1"] },
          { titleTexts := ["B"], urlHrefs := ["/job-listings-1"] },
          { titleTexts := ["C"], urlHrefs := ["/job-listings-2"] }] }).2.1
      (by decide) (by decide)
  · exact (markup_dedup_first_occurrence
      { fallbackGroups := [[{ tuples := [
          { titleTexts := ["D"], urlHrefs := ["/job-listings-3"] },
          { titleTexts := ["E"], urlHrefs := ["/job-listings-3"] }] }]] }).2.2.1
      (by decide) (by decide)
  · exact ((markup_dedup_first_occurrence
      { jobLinks := [
          { href := "/job-listings-4", text := "F" },
          { href := "/job-listings-4", text := "G" }] }).2.2.2.2
      (by decide)).1

/-! ## sanitizeHtmlFragment theorems (C6) -/

/-- C6 counterexample: the empty-element pass judges parents before their
children are removed, so `<p><em></em></p>` sanitizes to `<p></p>` while a
second application removes the now-empty `<p>` — `sanitize ∘ sanitize ≠
sanitize` on this fragment. -/
theorem sanitize_not_idempotent_cex :
    sanitizeHtmlFragment (sanitizeHtmlFragment
        (Forest.elem "p" [] (Forest.elem "em" [] Forest.nil Forest.nil) Forest.nil)) ≠
      sanitizeHtmlFragment
        (Forest.elem "p" [] (Forest.elem "em" [] Forest.nil Forest.nil) Forest.nil) ∧
    sanitizeHtmlFragment
        (Forest.elem "p" [] (Forest.elem "em" [] Forest.nil Forest.nil) Forest.nil) =
      Forest.elem "p" [] Forest.nil Forest.nil ∧
    sanitizeHtmlFragment (Forest.elem "p" [] Forest.nil Forest.nil) = Forest.nil := by
  refine ⟨by decide, by decide, by decide⟩

/-- Appending preserves the allowed-tags checker. -/
theorem tagsAllowed_append (f : Forest) :
    ∀ g, tagsAllowed f = true → tagsAllowed g = true → tagsAllowed (appendF f g) = true := by
  induction f with
  | nil => intro g _ hg; simpa [appendF] using hg
  | text s r ih =>
    intro g hf hg
    simp only [appendF]
    simp only [tagsAllowed] at hf ⊢
    exact ih g hf hg
  | elem t a c r ihc ihr =>
    intro g hf hg
    simp only [appendF]
    simp only [tagsAllowed, Bool.and_eq_true] at hf ⊢
    exact ⟨⟨hf.1.1, hf.1.2⟩, ihr g hf.2 hg⟩

/-- Removing the noisy tags preserves non-empty tag names. -/
theorem removeNoisy_tagsNonEmpty (f : Forest) (h : tagsNonEmpty f = true) :
    tagsNonEmpty (removeNoisy f) = true := by
  induction f with
  | nil => exact h
  | text s r ih =>
    simp only [removeNoisy]
    simp only [tagsNonEmpty] at h ⊢
    exact ih h
  | elem t a c r ihc ihr =>
    simp only [tagsNonEmpty, Bool.and_eq_true] at h
    simp only [removeNoisy]
    split
    · exact ihr h.2
    · simp only [tagsNonEmpty, Bool.and_eq_true]
      exact ⟨⟨h.1.1, ihc h.1.2⟩, ihr h.2⟩

/-- After the unwrap pass, every surviving element is allow-listed
(given real DOM tag names, which are never empty). -/
theorem unwrapF_allowed (f : Forest) (h : tagsNonEmpty f = true) :
    tagsAllowed (unwrapF f) = true := by
  induction f with
  | nil => exact h
  | text s r ih =>
    simp only [tagsNonEmpty] at h
    simp only [unwrapF]
    simp only [tagsAllowed]
    exact ih h
  | elem t a c r ihc ihr =>
    simp only [tagsNonEmpty, Bool.and_eq_true, decide_eq_true_eq] at h
    obtain ⟨⟨hne, hc⟩, hr⟩ := h
    simp only [unwrapF]
    by_cases hin : toLowerStr t ∈ allowedTags
    · rw [if_pos (Or.inr hin)]
      simp only [tagsAllowed, Bool.and_eq_true, decide_eq_true_eq]
      exact ⟨⟨hin, ihc hc⟩, ihr hr⟩
    · rw [if_neg (by rintro (he | he) <;> [exact hne he; exact hin he])]
      exact tagsAllowed_append _ _ (ihc hc) (ihr hr)

/-- The attribute pass yields the claimed output shape from allowed tags. -/
theorem stripAttrsF_shape (f : Forest) (h : tagsAllowed f = true) :
    sanitizedShapeOk (stripAttrsF f) = true := by
  induction f with
  | nil => exact h
  | text s r ih =>
    simp only [tagsAllowed] at h
    simp only [stripAttrsF]
    simp only [sanitizedShapeOk]
    exact ih h
  | elem t a c r ihc ihr =>
    simp only [tagsAllowed, Bool.and_eq_true] at h
    simp only [stripAttrsF, sanitizedShapeOk, Bool.and_eq_true]
    refine ⟨⟨⟨h.1.1, ?_⟩, ihc h.1.2⟩, ihr h.2⟩
    simp only [List.all_eq_true]
    intro x hx
    exact (List.mem_filter.mp hx).2

/-- Removing empty elements preserves the output shape. -/
theorem removeEmptyF_shape (f : Forest) (h : sanitizedShapeOk f = true) :
    sanitizedShapeOk (removeEmptyF f) = true := by
  induction f with
  | nil => exact h
  | text s r ih =>
    simp only [sanitizedShapeOk] at h
    simp only [removeEmptyF]
    simp only [sanitizedShapeOk]
    exact ih h
  | elem t a c r ihc ihr =>
    simp only [sanitizedShapeOk, Bool.and_eq_true] at h
    simp only [removeEmptyF]
    split
    · exact ihr h.2
    · simp only [sanitizedShapeOk, Bool.and_eq_true]
      exact ⟨⟨h.1.1, ihc h.1.2⟩, ihr h.2⟩

/-- C6 (amended): on any fragment whose DOM tag names are non-empty,
the sanitized output contains only allow-listed tags and no attribute other
than `href`; idempotency fails (see the counterexample). -/
theorem sanitize_allowlist_amended (f : Forest) (h : tagsNonEmpty f = true) :
    sanitizedShapeOk (sanitizeHtmlFragment f) = true := by
  unfold sanitizeHtmlFragment
  exact removeEmptyF_shape _ (stripAttrsF_shape _ (unwrapF_allowed _
    (removeNoisy_tagsNonEmpty f h)))

/-- Witness for C6 (amended) on a concrete fragment with a disallowed tag,
an attribute, and a script. -/
theorem sanitize_allowlist_amended_witness :
    sanitizedShapeOk (sanitizeHtmlFragment
      (Forest.elem "div" [("class", "x")]
        (Forest.text "hi" (Forest.elem "script" [] (Forest.text "bad" Forest.nil) Forest.nil))
        (Forest.elem "p" [("onclick", "y"), ("href", "h")] (Forest.text "ok" Forest.nil)
          Forest.nil))) = true := by
  exact sanitize_allowlist_amended _ (by decide)

end Naukri
